import Mathlib

/-!
Shallow embedding of the Osmium PBF output writer
(src/include/osmium/output/pbf.hpp).

The writer's two small collaborators from the same repository,
osmium/utils/stringtable.hpp (the interim string table) and
osmium/utils/delta.hpp (the delta tracker), are not among the given
sources; they are modelled from the specification (sections 4.1, 4.2 and
scenario S5) and marked as such in their doc comments.  Protobuf
serialization, zlib compression and the file descriptor are external
collaborators; blocks are therefore kept structured in the model, and the
frame writer is modelled over abstract byte lists with an explicit result
for each write system call.
-/

namespace Osmium

attribute [local semireducible] Rat.add Rat.mul Rat.sub Rat.inv

/-- Rounding as done by the C function round: nearest integer, halves away from zero. -/
def cround (q : ℚ) : Int :=
  if 0 ≤ q then (q + 1/2).floor else -(((1/2) - q).floor)

/-- Maximum number of items in a primitive block (pbf.hpp, max_block_contents). -/
def max_block_contents : Nat := 8000

/-- Fill threshold percentage (pbf.hpp, buffer_fill_percent). -/
def buffer_fill_percent : Nat := 95

/-- Constant from the external OSMPBF library: 32 MiB maximum uncompressed blob size. -/
def max_uncompressed_blob_size : Nat := 33554432

/-- Constant from the external OSMPBF library: nanodegree resolution for coordinates. -/
def lonlat_resolution : Int := 1000000000

/-- lonlat2int from pbf.hpp: scale a coordinate by the block granularity and round. -/
def lonlat2int (granularity : Int) (lonlat : ℚ) : Int :=
  cround (lonlat * (lonlat_resolution : ℚ) / (granularity : ℚ))

/-- timestamp2int from pbf.hpp: scale an epoch-second timestamp by the date granularity. -/
def timestamp2int (dateGranularity : Int) (timestamp : Int) : Int :=
  cround ((timestamp : ℚ) * ((1000 : ℚ) / (dateGranularity : ℚ)))

/-- Modulus of the 32-bit unsigned delta tracker used for the user string index. -/
def u32 : Nat := 4294967296

/-- Modelled from the spec (section 4.1, osmium/utils/delta.hpp is not among the
sources): update of the 32-bit unsigned delta tracker, returning v minus prev
with unsigned wrap-around. -/
def deltaU32 (prev v : Nat) : Nat :=
  ((v % u32) + u32 - prev % u32) % u32

/-- Delta-encode a column: each value is stored as its difference from the previous
value, starting from prev.  This is the result of feeding the values one by one
through a signed delta tracker (spec section 4.1). -/
def deltaEncode (prev : Int) : List Int → List Int
  | [] => []
  | x :: xs => (x - prev) :: deltaEncode x xs

/-- Reconstruction of a delta-encoded column by cumulative sums from prev. -/
def undelta (prev : Int) : List Int → List Int
  | [] => []
  | d :: ds => (prev + d) :: undelta (prev + d) ds

/-- Reconstruction of an unsigned 32-bit delta-encoded column by cumulative sums
modulo two to the 32, starting from prev. -/
def undeltaU32 (prev : Nat) : List Nat → List Nat
  | [] => []
  | d :: ds => ((prev + d) % u32) :: undeltaU32 ((prev + d) % u32) ds

/-- Split a list into consecutive chunks of 8000 elements (the last chunk may be
shorter).  This mirrors how the writer cuts a stream of entities into primitive
blocks of max_block_contents entities. -/
def chunk8000 : List α → List (List α)
  | [] => []
  | x :: xs => ((x :: xs).take 8000) :: chunk8000 ((x :: xs).drop 8000)
termination_by l => l.length
decreasing_by simp; omega

/-! ### Interim string table (modelled from the spec) -/

/-- Lexicographic comparison of character lists by code point. -/
def charListLt : List Char → List Char → Bool
  | [], [] => false
  | [], _ :: _ => true
  | _ :: _, [] => false
  | c :: cs, d :: ds => if c < d then true else if d < c then false else charListLt cs ds

/-- Ascending string comparison (spec section 4.2), character-wise by code
point, used to break ties when the final string table is built. -/
def strLtB (a b : String) : Bool :=
  charListLt a.data b.data

/-- Count of the entries satisfying a Boolean predicate. -/
def countB {α : Type} (p : α → Bool) : List α → Nat
  | [] => 0
  | x :: l => (cond (p x) 1 0) + countB p l

/-- An entry f is ranked before entry e when its usage count is higher, or equal
with f's string comparing smaller (spec section 4.2). -/
def rankPred (e f : String × Nat) : Bool :=
  decide (e.2 < f.2) || (f.2 == e.2 && strLtB f.1 e.1)

/-- Modelled from the spec (section 4.2): the interim string table of
osmium/utils/stringtable.hpp, which is not among the sources.  It stores the
recorded strings in insertion order together with their usage counts; the
interim id of the entry at list position i is i+1, id 0 is reserved. -/
structure StringTable where
  entries : List (String × Nat)
deriving DecidableEq, Repr

/-- The empty interim string table. -/
def StringTable.empty : StringTable := ⟨[]⟩

/-- Increment the usage count of the entry at position i. -/
def bumpCount : List (String × Nat) → Nat → List (String × Nat)
  | [], _ => []
  | e :: rest, 0 => (e.1, e.2 + 1) :: rest
  | e :: rest, i + 1 => e :: bumpCount rest i

/-- Position of the entry holding string s, if any. -/
def findStr : List (String × Nat) → String → Option Nat
  | [], _ => none
  | e :: rest, s => if e.1 = s then some 0 else (findStr rest s).map (fun i => i + 1)

/-- Modelled from the spec (section 4.2): record a string, returning its interim
id.  An empty string yields 0 without being recorded; a known string yields its
existing id with the usage count incremented; a new string is appended and gets
the next interim id, starting at 1. -/
def StringTable.record_string (st : StringTable) (s : String) : Nat × StringTable :=
  if s = "" then (0, st)
  else
    match findStr st.entries s with
    | some i => (i + 1, ⟨bumpCount st.entries i⟩)
    | none => (st.entries.length + 1, ⟨st.entries ++ [(s, 1)]⟩)

/-- Modelled from the spec (sections 4.2 and S5): map an interim id to its final
string-table id.  Final ids order the recorded strings by descending usage
count, ties broken by ascending string comparison, starting at 1 (index 0 is
the empty string).  The id 0 maps to 0, matching scenario S5 where an empty
role's interim id 0 flows through the remap and is emitted as 0. -/
def StringTable.map_string_id (st : StringTable) (interim : Nat) : Nat :=
  if interim = 0 then 0
  else
    match st.entries[interim - 1]? with
    | none => 0
    | some e => 1 + countB (rankPred e) st.entries

/-- Insertion into a list sorted by the given comparison. -/
def insertLe (le : α → α → Bool) (x : α) : List α → List α
  | [] => [x]
  | y :: ys => if le x y then x :: y :: ys else y :: insertLe le x ys

/-- Insertion sort by the given comparison. -/
def sortLe (le : α → α → Bool) : List α → List α
  | [] => []
  | x :: xs => insertLe le x (sortLe le xs)

/-- Comparison used to build the final string table: descending usage count,
ties broken by ascending string comparison. -/
def stringTableLe (a b : String × Nat) : Bool :=
  decide (b.2 < a.2) || (a.2 == b.2 && !(strLtB b.1 a.1))

/-- Modelled from the spec (section 4.2): the emitted final string table; index 0
holds the empty string, the recorded strings follow sorted by descending usage
count with ties broken by ascending string comparison. -/
def StringTable.store_stringtable (st : StringTable) : List String :=
  "" :: (sortLe stringTableLe st.entries).map (fun e => e.1)

/-! ### OSM entities (the collaborator object model, spec section 6) -/

/-- An OSM node as consumed by the writer. -/
structure OSMNode where
  id : Int
  tags : List (String × String)
  version : Int
  timestamp : Int
  changeset : Int
  uid : Int
  user : String
  visible : Bool
  lon : ℚ
  lat : ℚ
deriving DecidableEq, Repr

/-- An OSM way as consumed by the writer. -/
structure OSMWay where
  id : Int
  tags : List (String × String)
  version : Int
  timestamp : Int
  changeset : Int
  uid : Int
  user : String
  visible : Bool
  node_refs : List Int
deriving DecidableEq, Repr

/-- A relation member: kind tag, referenced id, role string. -/
structure RelationMember where
  type : Char
  ref : Int
  role : String
deriving DecidableEq, Repr

/-- An OSM relation as consumed by the writer. -/
structure OSMRelation where
  id : Int
  tags : List (String × String)
  version : Int
  timestamp : Int
  changeset : Int
  uid : Int
  user : String
  visible : Bool
  members : List RelationMember
deriving DecidableEq, Repr

/-! ### Protobuf-side block structures -/

/-- The OSMPBF Info message: per-entity metadata. -/
structure Info where
  visible : Option Bool
  version : Int
  timestamp : Int
  changeset : Int
  uid : Int
  user_sid : Nat
deriving DecidableEq, Repr

/-- The OSMPBF Node message (sparse encoding). -/
structure PBFNode where
  id : Int
  keys : List Nat
  vals : List Nat
  info : Option Info
  lon : Int
  lat : Int
deriving DecidableEq, Repr

/-- The OSMPBF DenseInfo message: columnar metadata for dense nodes. -/
structure DenseInfoData where
  version : List Int
  visible : List Bool
  timestamp : List Int
  changeset : List Int
  uid : List Int
  user_sid : List Nat
deriving DecidableEq, Repr

/-- The OSMPBF DenseNodes message: columnar delta-encoded node data. -/
structure DenseData where
  ids : List Int
  lons : List Int
  lats : List Int
  keys_vals : List Nat
  denseinfo : Option DenseInfoData
deriving DecidableEq, Repr

/-- The empty DenseNodes message. -/
def emptyDense : DenseData := ⟨[], [], [], [], none⟩

/-- The empty DenseInfo message. -/
def emptyDenseInfo : DenseInfoData := ⟨[], [], [], [], [], []⟩

/-- The primitive group used for nodes: plain nodes plus an optional dense section. -/
structure NodesGroup where
  nodes : List PBFNode
  dense : Option DenseData
deriving DecidableEq, Repr

/-- The OSMPBF Way message. -/
structure PBFWay where
  id : Int
  keys : List Nat
  vals : List Nat
  info : Option Info
  refs : List Int
deriving DecidableEq, Repr

/-- The OSMPBF Relation message. -/
structure PBFRelation where
  id : Int
  keys : List Nat
  vals : List Nat
  info : Option Info
  roles_sid : List Nat
  memids : List Int
  types : List Nat
deriving DecidableEq, Repr

/-- OSMPBF member-type enum value for nodes. -/
def MEMBER_NODE : Nat := 0

/-- OSMPBF member-type enum value for ways. -/
def MEMBER_WAY : Nat := 1

/-- OSMPBF member-type enum value for relations. -/
def MEMBER_RELATION : Nat := 2

/-- A primitive block as emitted into a data frame, after string-id remapping. -/
structure PrimitiveBlockData where
  stringtable : List String
  granularity : Int
  date_granularity : Int
  nodesGroup : Option NodesGroup
  waysGroup : Option (List PBFWay)
  relationsGroup : Option (List PBFRelation)
deriving DecidableEq, Repr

/-- A header block as emitted into the first frame. -/
structure HeaderBlockData where
  required_features : List String
  writingprogram : String
  bbox : Option (Int × Int × Int × Int)
deriving DecidableEq, Repr

/-- A frame of the output: its blob-header type is determined by the constructor. -/
inductive Frame where
  | osmheader (hb : HeaderBlockData)
  | osmdata (pb : PrimitiveBlockData)
deriving DecidableEq, Repr

/-- The blob-header type string of a frame. -/
def Frame.blobType : Frame → String
  | .osmheader _ => "OSMHeader"
  | .osmdata _ => "OSMData"

/-- Error taxonomy of the writer (spec section 7). -/
inductive EncodingError where
  | IoFailed
  | CompressionFailed
  | InvalidMemberType
  | InvalidCoordinate
deriving DecidableEq, Repr

/-! ### The writer state (class PBF in pbf.hpp) -/

/-- The state of the PBF writer, mirroring the data members of class PBF. -/
structure PBFWriter where
  m_use_dense_format : Bool
  m_use_compression : Bool
  m_should_add_metadata : Bool
  m_add_visible : Bool
  m_file_is_history : Bool
  m_generator : String
  m_location_granularity : Int
  m_date_granularity : Int
  primitive_block_contents : Nat
  primitive_block_size : Nat
  string_table : StringTable
  m_delta_id : Int
  m_delta_lat : Int
  m_delta_lon : Int
  m_delta_timestamp : Int
  m_delta_changeset : Int
  m_delta_uid : Int
  m_delta_user_sid : Nat
  pbf_nodes : Option NodesGroup
  pbf_ways : Option (List PBFWay)
  pbf_relations : Option (List PBFRelation)
  output : List Frame
deriving DecidableEq, Repr

/-- A freshly constructed writer (the PBF constructor): given configuration flags,
the file-variant tag and the generator string.  add_visible is derived from
whether the file carries multiple object versions, which for this model of
OsmFile coincides with the history file variant (spec sections 3 and 6). -/
def PBFWriter.fresh (dense compress meta history : Bool) (g dg : Int) (gen : String) :
    PBFWriter where
  m_use_dense_format := dense
  m_use_compression := compress
  m_should_add_metadata := meta
  m_add_visible := history
  m_file_is_history := history
  m_generator := gen
  m_location_granularity := g
  m_date_granularity := dg
  primitive_block_contents := 0
  primitive_block_size := 0
  string_table := StringTable.empty
  m_delta_id := 0
  m_delta_lat := 0
  m_delta_lon := 0
  m_delta_timestamp := 0
  m_delta_changeset := 0
  m_delta_uid := 0
  m_delta_user_sid := 0
  pbf_nodes := none
  pbf_ways := none
  pbf_relations := none
  output := []

/-- A writer with the default configuration for a non-history file. -/
def PBFWriter.mkDefault (gen : String) : PBFWriter :=
  PBFWriter.fresh true true true false 100 1000 gen

/-! ### Recording helpers (apply_common_info and the dense tag stream) -/

/-- Record the tags of an entity as two parallel interim-id lists
(apply_common_info in pbf.hpp): per tag the key is recorded first, then the value. -/
def recordTags (st : StringTable) : List (String × String) → List Nat × List Nat × StringTable
  | [] => ([], [], st)
  | (k, v) :: rest =>
      let p1 := st.record_string k
      let p2 := p1.2.record_string v
      let r := recordTags p2.2 rest
      (p1.1 :: r.1, p2.1 :: r.2.1, r.2.2)

/-- Record the tags of a dense node into the flat keys_vals stream
(write_dense_node in pbf.hpp): key id then value id, per tag, in order. -/
def recordKeysVals (st : StringTable) : List (String × String) → List Nat × StringTable
  | [] => ([], st)
  | (k, v) :: rest =>
      let p1 := st.record_string k
      let p2 := p1.2.record_string v
      let r := recordKeysVals p2.2 rest
      (p1.1 :: p2.1 :: r.1, r.2)

/-- Build the optional Info record for an entity (metadata branch of
apply_common_info): records the user name into the interim string table. -/
def makeInfo (w : PBFWriter) (st : StringTable) (version timestamp changeset uid : Int)
    (user : String) (visible : Bool) : Option Info × StringTable :=
  if w.m_should_add_metadata then
    let p := st.record_string user
    (some { visible := if w.m_add_visible then some visible else none
            version := version
            timestamp := timestamp2int w.m_date_granularity timestamp
            changeset := changeset
            uid := uid
            user_sid := p.1 }, p.2)
  else (none, st)

/-! ### Flush-time string-id remapping (map_string_ids in pbf.hpp) -/

/-- Remap one entry of the dense keys_vals stream (map_string_ids): the entry is
read into a 16-bit unsigned local, so it is narrowed modulo two to the 16 before
the zero test; a positive narrowed value is remapped, otherwise the entry is
left unchanged. -/
def remap_keys_vals_entry (st : StringTable) (kv : Nat) : Nat :=
  let sid := kv % 65536
  if 0 < sid then st.map_string_id sid else kv

/-- Rewrite the DenseInfo user_sid column at flush time (map_string_ids): each
interim id is mapped to its final id, the result is stored into a 16-bit
unsigned local, and that value is passed through the block-level 32-bit
unsigned user_sid delta tracker; the emitted entry is the delta. -/
def rewrite_user_sids (st : StringTable) (prev : Nat) : List Nat → List Nat × Nat
  | [] => ([], prev)
  | kv :: rest =>
      let fid := st.map_string_id kv % 65536
      let d := deltaU32 prev fid
      let r := rewrite_user_sids st fid rest
      (d :: r.1, r.2)

/-- map_common_string_ids for a sparse node: remap tag keys, tag values and the
user string id of the Info record. -/
def mapPBFNode (st : StringTable) (n : PBFNode) : PBFNode :=
  { n with keys := n.keys.map st.map_string_id
           vals := n.vals.map st.map_string_id
           info := n.info.map fun i => { i with user_sid := st.map_string_id i.user_sid } }

/-- map_common_string_ids for a way. -/
def mapPBFWay (st : StringTable) (x : PBFWay) : PBFWay :=
  { x with keys := x.keys.map st.map_string_id
           vals := x.vals.map st.map_string_id
           info := x.info.map fun i => { i with user_sid := st.map_string_id i.user_sid } }

/-- map_common_string_ids for a relation, plus the remap of every roles_sid entry. -/
def mapPBFRelation (st : StringTable) (x : PBFRelation) : PBFRelation :=
  { x with keys := x.keys.map st.map_string_id
           vals := x.vals.map st.map_string_id
           info := x.info.map fun i => { i with user_sid := st.map_string_id i.user_sid }
           roles_sid := x.roles_sid.map st.map_string_id }

/-- Flush-time rewrite of a DenseNodes section: remap the keys_vals stream and
delta-encode the remapped user_sid column with the block-level tracker. -/
def mapDense (st : StringTable) (delta_user_sid : Nat) (d : DenseData) : DenseData :=
  { d with keys_vals := d.keys_vals.map (remap_keys_vals_entry st)
           denseinfo := d.denseinfo.map fun di =>
             { di with user_sid := (rewrite_user_sids st delta_user_sid di.user_sid).1 } }

/-! ### Block flushing and the flush check -/

/-- store_primitive_block from pbf.hpp: set the block granularities, store the
final string table, remap all interim string ids, emit the block as a data
frame, and reset the interim table, all seven delta trackers, both counters and
the group pointers. -/
def store_primitive_block (w : PBFWriter) : PBFWriter :=
  let st := w.string_table
  let pb : PrimitiveBlockData :=
    { stringtable := st.store_stringtable
      granularity := w.m_location_granularity
      date_granularity := w.m_date_granularity
      nodesGroup := w.pbf_nodes.map fun gr => {
          nodes := gr.nodes.map (mapPBFNode st)
          dense := gr.dense.map (mapDense st w.m_delta_user_sid) }
      waysGroup := w.pbf_ways.map fun l => l.map (mapPBFWay st)
      relationsGroup := w.pbf_relations.map fun l => l.map (mapPBFRelation st) }
  { w with output := w.output ++ [Frame.osmdata pb]
           string_table := StringTable.empty
           m_delta_id := 0
           m_delta_lat := 0
           m_delta_lon := 0
           m_delta_timestamp := 0
           m_delta_changeset := 0
           m_delta_uid := 0
           m_delta_user_sid := 0
           primitive_block_contents := 0
           primitive_block_size := 0
           pbf_nodes := none
           pbf_ways := none
           pbf_relations := none }

/-- The condition under which check_block_contents_counter flushes: the entity
counter has reached the maximum, or otherwise the estimated size exceeds
95 percent (in integer arithmetic) of the maximum uncompressed blob size. -/
def flush_condition (w : PBFWriter) : Bool :=
  decide (max_block_contents ≤ w.primitive_block_contents) ||
    (decide (w.primitive_block_contents < max_block_contents) &&
      decide (max_uncompressed_blob_size * buffer_fill_percent / 100 < w.primitive_block_size))

/-- check_block_contents_counter from pbf.hpp: flush if the counter reached the
maximum, else flush if the estimated size exceeds the fill threshold; then
increment the counter. -/
def check_block_contents_counter (w : PBFWriter) : PBFWriter :=
  let w' :=
    if max_block_contents ≤ w.primitive_block_contents then store_primitive_block w
    else if max_uncompressed_blob_size * buffer_fill_percent / 100 < w.primitive_block_size then
      store_primitive_block w
    else w
  { w' with primitive_block_contents := w'.primitive_block_contents + 1 }

/-! ### Entity encoders -/

/-- write_node from pbf.hpp: append a sparse node to the nodes group. -/
def write_node (w : PBFWriter) (n : OSMNode) : PBFWriter :=
  let gr := w.pbf_nodes.getD ⟨[], none⟩
  let rt := recordTags w.string_table n.tags
  let mi := makeInfo w rt.2.2 n.version n.timestamp n.changeset n.uid n.user n.visible
  let pn : PBFNode :=
    { id := n.id
      keys := rt.1
      vals := rt.2.1
      info := mi.1
      lon := lonlat2int w.m_location_granularity n.lon
      lat := lonlat2int w.m_location_granularity n.lat }
  { w with pbf_nodes := some { gr with nodes := gr.nodes ++ [pn] }
           string_table := mi.2 }

/-- write_dense_node from pbf.hpp: append a node to the DenseNodes section as
delta-encoded columns, record its tags into the flat keys_vals stream followed
by the 0 separator, and, when metadata is on, extend the DenseInfo columns
(version and visible raw, timestamp, changeset and uid delta-encoded, the user
name recorded as an interim string id). -/
def write_dense_node (w : PBFWriter) (n : OSMNode) : PBFWriter :=
  let gr := w.pbf_nodes.getD ⟨[], none⟩
  let d := gr.dense.getD emptyDense
  let lon := lonlat2int w.m_location_granularity n.lon
  let lat := lonlat2int w.m_location_granularity n.lat
  let kv := recordKeysVals w.string_table n.tags
  let ts := timestamp2int w.m_date_granularity n.timestamp
  if w.m_should_add_metadata then
    let di := d.denseinfo.getD emptyDenseInfo
    let pu := kv.2.record_string n.user
    { w with
      pbf_nodes := some { gr with dense := some {
            ids := d.ids ++ [n.id - w.m_delta_id]
            lons := d.lons ++ [lon - w.m_delta_lon]
            lats := d.lats ++ [lat - w.m_delta_lat]
            keys_vals := d.keys_vals ++ kv.1 ++ [0]
            denseinfo := some {
                version := di.version ++ [n.version]
                visible := if w.m_add_visible then di.visible ++ [n.visible] else di.visible
                timestamp := di.timestamp ++ [ts - w.m_delta_timestamp]
                changeset := di.changeset ++ [n.changeset - w.m_delta_changeset]
                uid := di.uid ++ [n.uid - w.m_delta_uid]
                user_sid := di.user_sid ++ [pu.1] } } }
      string_table := pu.2
      m_delta_id := n.id
      m_delta_lon := lon
      m_delta_lat := lat
      m_delta_timestamp := ts
      m_delta_changeset := n.changeset
      m_delta_uid := n.uid }
  else
    { w with
      pbf_nodes := some { gr with dense := some {
            ids := d.ids ++ [n.id - w.m_delta_id]
            lons := d.lons ++ [lon - w.m_delta_lon]
            lats := d.lats ++ [lat - w.m_delta_lat]
            keys_vals := d.keys_vals ++ kv.1 ++ [0]
            denseinfo := d.denseinfo } }
      string_table := kv.2
      m_delta_id := n.id
      m_delta_lon := lon
      m_delta_lat := lat }

/-- write_way from pbf.hpp: append a way to the ways group; node references go
through a way-local delta tracker starting from zero; the estimated block size
grows by the serialized size of the way, computed by the external protobuf
library and therefore a parameter here. -/
def write_way (waySize : PBFWay → Nat) (w : PBFWriter) (x : OSMWay) : PBFWriter :=
  let rt := recordTags w.string_table x.tags
  let mi := makeInfo w rt.2.2 x.version x.timestamp x.changeset x.uid x.user x.visible
  let pw : PBFWay :=
    { id := x.id
      keys := rt.1
      vals := rt.2.1
      info := mi.1
      refs := deltaEncode 0 x.node_refs }
  { w with pbf_ways := some (w.pbf_ways.getD [] ++ [pw])
           string_table := mi.2
           primitive_block_size := w.primitive_block_size + waySize pw }

/-- The member-type switch of write_relation: kind tags n, w, r map to the OSMPBF
enum values; any other tag raises the invalid-member-type error. -/
def encodeMemberType (c : Char) : Except EncodingError Nat :=
  if c = 'n' then .ok MEMBER_NODE
  else if c = 'w' then .ok MEMBER_WAY
  else if c = 'r' then .ok MEMBER_RELATION
  else .error .InvalidMemberType

/-- The member loop of write_relation: record each role into the interim string
table, delta-encode each member id through a relation-local tracker, and map
each kind tag; the first unknown kind aborts with the invalid-member-type error. -/
def processMembers (st : StringTable) (prev : Int) :
    List RelationMember → Except EncodingError (List Nat × List Int × List Nat × StringTable)
  | [] => .ok ([], [], [], st)
  | m :: rest =>
      let pr := st.record_string m.role
      match encodeMemberType m.type with
      | .error e => .error e
      | .ok t =>
          match processMembers pr.2 m.ref rest with
          | .error e => .error e
          | .ok r => .ok (pr.1 :: r.1, (m.ref - prev) :: r.2.1, t :: r.2.2.1, r.2.2.2)

/-- write_relation from pbf.hpp: append a relation to the relations group; the
estimated block size grows by the serialized size of the relation, computed by
the external protobuf library and therefore a parameter here. -/
def write_relation (relSize : PBFRelation → Nat) (w : PBFWriter) (x : OSMRelation) :
    Except EncodingError PBFWriter :=
  let rt := recordTags w.string_table x.tags
  let mi := makeInfo w rt.2.2 x.version x.timestamp x.changeset x.uid x.user x.visible
  match processMembers mi.2 0 x.members with
  | .error e => .error e
  | .ok r =>
      let pr : PBFRelation :=
        { id := x.id
          keys := rt.1
          vals := rt.2.1
          info := mi.1
          roles_sid := r.1
          memids := r.2.1
          types := r.2.2.1 }
      .ok { w with pbf_relations := some (w.pbf_relations.getD [] ++ [pr])
                   string_table := r.2.2.2
                   primitive_block_size := w.primitive_block_size + relSize pr }

/-! ### Session driver -/

/-- The node method of class PBF: run the flush check, make sure the nodes group
exists, then encode the node sparse or dense according to the configuration. -/
def PBF.node (w : PBFWriter) (n : OSMNode) : PBFWriter :=
  let w := check_block_contents_counter w
  let w := if w.pbf_nodes.isNone then { w with pbf_nodes := some ⟨[], none⟩ } else w
  if w.m_use_dense_format then write_dense_node w n else write_node w n

/-- The way method of class PBF. -/
def PBF.way (waySize : PBFWay → Nat) (w : PBFWriter) (x : OSMWay) : PBFWriter :=
  let w := check_block_contents_counter w
  let w := if w.pbf_ways.isNone then { w with pbf_ways := some [] } else w
  write_way waySize w x

/-- The relation method of class PBF. -/
def PBF.relation (relSize : PBFRelation → Nat) (w : PBFWriter) (x : OSMRelation) :
    Except EncodingError PBFWriter :=
  let w := check_block_contents_counter w
  let w := if w.pbf_relations.isNone then { w with pbf_relations := some [] } else w
  write_relation relSize w x

/-- Truncation of a rational towards zero, as the C double-to-integer conversion. -/
def ratTrunc (q : ℚ) : Int :=
  if 0 ≤ q then q.floor else -((-q).floor)

/-- The init method of class PBF: build the header block with its required
features (always OsmSchema-V0.6, DenseNodes exactly when the dense format is
used, HistoricalInformation exactly for the history file variant), set the
writing program and the optional bounding box, and emit it as an OSMHeader
frame. -/
def PBF.init (w : PBFWriter) (bounds : Option (ℚ × ℚ × ℚ × ℚ)) : PBFWriter :=
  let features :=
    ["OsmSchema-V0.6"] ++
      (if w.m_use_dense_format then ["DenseNodes"] else []) ++
        (if w.m_file_is_history then ["HistoricalInformation"] else [])
  let hb : HeaderBlockData :=
    { required_features := features
      writingprogram := w.m_generator
      bbox := bounds.map fun b =>
        (ratTrunc (b.1 * (lonlat_resolution : ℚ)), ratTrunc (b.2.1 * (lonlat_resolution : ℚ)),
         ratTrunc (b.2.2.1 * (lonlat_resolution : ℚ)), ratTrunc (b.2.2.2 * (lonlat_resolution : ℚ))) }
  { w with output := w.output ++ [Frame.osmheader hb] }

/-- The final method of class PBF: flush the in-flight block when it contains
any entities, then close the file (external). -/
def PBF.final (w : PBFWriter) : PBFWriter :=
  if 0 < w.primitive_block_contents then store_primitive_block w else w

/-- Ingest a list of nodes in order. -/
def runNodes (w : PBFWriter) (ns : List OSMNode) : PBFWriter :=
  ns.foldl PBF.node w

/-! ### Frame writer (store_blob tail of pbf.hpp) -/

/-- The 4-byte unsigned big-endian encoding used for the blob-header length. -/
def u32be (n : Nat) : List Nat :=
  [n / 16777216 % 256, n / 65536 % 256, n / 256 % 256, n % 256]

/-- The three write system calls at the end of store_blob, over abstract byte
lists.  Each call to the POSIX write function returns a result r: the code
raises the I/O error when r is negative and otherwise continues, the operating
system having appended the first r bytes of the buffer to the file; there is no
completeness check and no retry in the source. -/
def store_blob_writes (file : List Nat) (blobhead blob : List Nat) (r1 r2 r3 : Int) :
    Except EncodingError (List Nat) :=
  let sz := u32be blobhead.length
  if r1 < 0 then .error .IoFailed
  else
    let f1 := file ++ sz.take r1.toNat
    if r2 < 0 then .error .IoFailed
    else
      let f2 := f1 ++ blobhead.take r2.toNat
      if r3 < 0 then .error .IoFailed
      else .ok (f2 ++ blob.take r3.toNat)

/-! ### Projections used in the theorems -/

/-- The DenseNodes section of a data frame, when present. -/
def FrameDense (fr : Frame) : Option DenseData :=
  match fr with
  | .osmdata pb => pb.nodesGroup.bind (fun gr => gr.dense)
  | .osmheader _ => none

/-- Number of zero entries a single node contributes to the keys_vals stream:
one separator plus one entry for each empty tag key and each empty tag value. -/
def nodeZeroCount (n : OSMNode) : Nat :=
  1 + n.tags.countP (fun t => t.1 == "") + n.tags.countP (fun t => t.2 == "")

/-- The primitive block of a data frame, when the frame is a data frame. -/
def FramePB (fr : Frame) : Option PrimitiveBlockData :=
  match fr with
  | .osmdata pb => some pb
  | .osmheader _ => none

/-- The roles_sid column of the last relation of the last emitted frame's
relations group, when present. -/
def lastRelationRoles (w : PBFWriter) : Option (List Nat) :=
  (((w.output.getLast?.bind FramePB).bind
    (fun pb => pb.relationsGroup)).bind List.getLast?).map (fun r => r.roles_sid)

/-- A relation with a member whose kind tag is not among n, w, r. -/
def relationBad : OSMRelation :=
  { id := 7, tags := [], version := 1, timestamp := 0, changeset := 0, uid := 0,
    user := "", visible := true,
    members := [⟨'w', 10, "outer"⟩, ⟨'x', 5, "via"⟩] }


/-- Characterization of the dense section a block of nodes c produces, for a
writer with location granularity g, date granularity dg and visible flag b:
every delta-encoded column is the delta encoding from zero of the scaled
ingested values, version and visible are raw, and the keys_vals stream holds
one zero per node plus one per empty tag key or value. -/
def ChunkDenseOK (g dg : Int) (b : Bool) (c : List OSMNode) (d : DenseData) : Prop :=
  d.ids = deltaEncode 0 (c.map (fun n => n.id)) ∧
  d.lons = deltaEncode 0 (c.map (fun n => lonlat2int g n.lon)) ∧
  d.lats = deltaEncode 0 (c.map (fun n => lonlat2int g n.lat)) ∧
  d.keys_vals.count 0 = (c.map nodeZeroCount).sum ∧
  ∃ di, d.denseinfo = some di ∧
    di.version = c.map (fun n => n.version) ∧
    di.visible = (if b then c.map (fun n => n.visible) else []) ∧
    di.timestamp = deltaEncode 0 (c.map (fun n => timestamp2int dg n.timestamp)) ∧
    di.changeset = deltaEncode 0 (c.map (fun n => n.changeset)) ∧
    di.uid = deltaEncode 0 (c.map (fun n => n.uid))

/-- The configuration facts the node pipeline proofs carry along: dense format
and metadata are on, and the granularities and visible flag have the given
values. -/
def ConfigOK (g dg : Int) (b : Bool) (w : PBFWriter) : Prop :=
  w.m_use_dense_format = true ∧ w.m_should_add_metadata = true ∧ w.m_add_visible = b ∧
    w.m_location_granularity = g ∧ w.m_date_granularity = dg

/-- The in-flight block state after ingesting the nodes cur since the last
block boundary: counters, the seven delta trackers, and the dense section
match cur; keys_vals entries are bounded by the interim table size. -/
def BlockState (g dg : Int) (b : Bool) (w : PBFWriter) (cur : List OSMNode) : Prop :=
  w.primitive_block_contents = cur.length ∧
  w.primitive_block_size = 0 ∧
  w.m_delta_user_sid = 0 ∧
  w.m_delta_id = (cur.map (fun n => n.id)).getLastD 0 ∧
  w.m_delta_lon = (cur.map (fun n => lonlat2int g n.lon)).getLastD 0 ∧
  w.m_delta_lat = (cur.map (fun n => lonlat2int g n.lat)).getLastD 0 ∧
  w.m_delta_timestamp = (cur.map (fun n => timestamp2int dg n.timestamp)).getLastD 0 ∧
  w.m_delta_changeset = (cur.map (fun n => n.changeset)).getLastD 0 ∧
  w.m_delta_uid = (cur.map (fun n => n.uid)).getLastD 0 ∧
  w.pbf_ways = none ∧
  w.pbf_relations = none ∧
  (cur = [] → w.pbf_nodes = none) ∧
  (cur ≠ [] → ∃ d, w.pbf_nodes = some ⟨[], some d⟩ ∧ ChunkDenseOK g dg b cur d ∧
    ∀ e ∈ d.keys_vals, e ≤ w.string_table.entries.length)

/-- Definition following the claim text of C10 for the user_sid rewrite, for
comparison with the translation from the source: here each entry is narrowed
to 16 bits already before the interim-to-final remap. -/
def rewrite_user_sids_narrow_first (st : StringTable) (prev : Nat) : List Nat → List Nat × Nat
  | [] => ([], prev)
  | kv :: rest =>
      let fid := st.map_string_id (kv % 65536) % 65536
      let d := deltaU32 prev fid
      let r := rewrite_user_sids_narrow_first st fid rest
      (d :: r.1, r.2)

/-! ### Concrete inputs for witnesses and counterexamples -/

/-- The node of scenario S2. -/
def nodeS2 : OSMNode :=
  { id := 42, tags := [("amenity", "cafe")], version := 1, timestamp := 1000000000,
    changeset := 7, uid := 3, user := "alice", visible := true, lon := 27/2, lat := 105/2 }

/-- A writer configured as in scenario S2: sparse nodes, otherwise defaults. -/
def writerS2 : PBFWriter := PBFWriter.fresh false true true false 100 1000 "osmium"

/-- A dense node carrying a tag with an empty value. -/
def nodeEmptyVal : OSMNode :=
  { id := 1, tags := [("k", "")], version := 1, timestamp := 0, changeset := 0, uid := 0,
    user := "u", visible := true, lon := 0, lat := 0 }

/-- A plain dense node used to instantiate universally quantified scenarios. -/
def nodePlain : OSMNode :=
  { id := 5, tags := [("a", "b")], version := 1, timestamp := 10, changeset := 2, uid := 4,
    user := "u", visible := true, lon := 1, lat := 2 }

/-- The relation of scenario S5, whose last member has an empty role. -/
def relationS5 : OSMRelation :=
  { id := 99, tags := [], version := 1, timestamp := 0, changeset := 0, uid := 0,
    user := "", visible := true,
    members := [⟨'w', 10, "outer"⟩, ⟨'n', 5, "via"⟩, ⟨'r', 3, ""⟩] }

/-- Distinct single-character strings ordered by their index, skipping the
surrogate code-point gap. -/
def idxChar (n : Nat) : Char :=
  if n < 55296 then Char.ofNat n else Char.ofNat (n + 2048)

/-- The ascending list s, s+1, ..., s+n-1, built head first. -/
def rangeAsc (s : Nat) : Nat → List Nat
  | 0 => []
  | n + 1 => s :: rangeAsc (s + 1) n

/-- An interim string table with 65537 distinct recorded strings, each used
once: the first recorded string sorts last, the remaining 65536 sort in
recording order.  Such a table arises from a block that records at least
two to the 16 distinct strings. -/
def bigST : StringTable :=
  ⟨(String.mk [Char.ofNat 131072], 1) ::
    (rangeAsc 0 65536).map (fun n => (String.mk [idxChar n], 1))⟩


/-! ### Lemmas: delta encoding -/

theorem deltaEncode_length (prev : Int) (xs : List Int) :
    (deltaEncode prev xs).length = xs.length := by
  induction xs generalizing prev with
  | nil => rfl
  | cons x xs ih => simp [deltaEncode, ih]

theorem undelta_deltaEncode (prev : Int) (xs : List Int) :
    undelta prev (deltaEncode prev xs) = xs := by
  induction xs generalizing prev with
  | nil => rfl
  | cons x xs ih => simp [deltaEncode, undelta, ih]

theorem deltaEncode_concat (prev : Int) (xs : List Int) (v : Int) :
    deltaEncode prev (xs ++ [v]) = deltaEncode prev xs ++ [v - xs.getLastD prev] := by
  induction xs generalizing prev with
  | nil => simp [deltaEncode, List.getLastD]
  | cons x xs ih =>
    simp only [List.cons_append, deltaEncode, List.append_eq]
    rw [ih, List.getLastD_cons]

theorem deltaEncode_zero_head (xs : List Int) :
    (deltaEncode 0 xs).head? = xs.head? := by
  cases xs with
  | nil => rfl
  | cons x xs => simp [deltaEncode]

theorem deltaU32_self (p : Nat) : deltaU32 p p = 0 := by
  simp [deltaU32, u32]

theorem getLastD_irrel {l : List α} (h : l ≠ []) (d d' : α) :
    l.getLastD d = l.getLastD d' := by
  cases l with
  | nil => exact absurd rfl h
  | cons a as => rfl

theorem getLastD_mem {l : List α} (h : l ≠ []) (d : α) : l.getLastD d ∈ l := by
  induction l generalizing d with
  | nil => exact absurd rfl h
  | cons a as ih =>
    rw [List.getLastD_cons]
    cases has : as with
    | nil => simp [List.getLastD]
    | cons b bs =>
      rw [← has]
      exact List.mem_cons_of_mem a (ih (by simp [has]) a)

/-! ### Lemmas: chunking -/

theorem chunk8000_nil : chunk8000 ([] : List α) = [] := by
  simp [chunk8000]

theorem chunk8000_of_ne_nil (l : List α) (h : l ≠ []) :
    chunk8000 l = l.take 8000 :: chunk8000 (l.drop 8000) := by
  cases l with
  | nil => exact absurd rfl h
  | cons x xs => rw [chunk8000]

theorem chunk8000_ne_nil (l : List α) (h : l ≠ []) : chunk8000 l ≠ [] := by
  rw [chunk8000_of_ne_nil l h]
  simp

theorem chunk8000_small (l : List α) (h1 : l ≠ []) (h2 : l.length ≤ 8000) :
    chunk8000 l = [l] := by
  rw [chunk8000_of_ne_nil l h1]
  have hd : l.drop 8000 = [] := List.drop_eq_nil_of_le h2
  rw [List.take_of_length_le h2, hd, chunk8000_nil]

theorem chunk8000_pieces_ne_nil (l : List α) : ∀ c ∈ chunk8000 l, c ≠ [] := by
  suffices H : ∀ (n : Nat) (l : List α), l.length = n → ∀ c ∈ chunk8000 l, c ≠ [] from H _ l rfl
  intro n
  induction n using Nat.strong_induction_on with
  | _ n ih =>
    intro l hn
    cases l with
    | nil => simp [chunk8000_nil]
    | cons x xs =>
      rw [chunk8000_of_ne_nil _ (by simp)]
      intro c hc
      rcases List.mem_cons.mp hc with h | h
      · subst h; simp
      · exact ih ((x :: xs).drop 8000).length (by subst hn; simp; omega) _ rfl c h

theorem chunk8000_flatten (l : List α) : (chunk8000 l).flatten = l := by
  suffices H : ∀ (n : Nat) (l : List α), l.length = n → (chunk8000 l).flatten = l from H _ l rfl
  intro n
  induction n using Nat.strong_induction_on with
  | _ n ih =>
    intro l hn
    cases l with
    | nil => simp [chunk8000_nil]
    | cons x xs =>
      rw [chunk8000_of_ne_nil _ (by simp)]
      rw [List.flatten_cons, ih ((x :: xs).drop 8000).length (by subst hn; simp; omega) _ rfl]
      exact List.take_append_drop _ _

theorem dropLast_cons_ne_nil (c : α) {l : List α} (h : l ≠ []) :
    (c :: l).dropLast = c :: l.dropLast := by
  cases l with
  | nil => exact absurd rfl h
  | cons a as => rfl

theorem getLastD_cons_ne_nil (c : α) {l : List α} (h : l ≠ []) (d : α) :
    (c :: l).getLastD d = l.getLastD d := by
  cases l with
  | nil => exact absurd rfl h
  | cons a as => rfl

theorem forall₂_concat {R : α → β → Prop} {l1 : List α} {l2 : List β} {a : α} {b : β}
    (h : List.Forall₂ R l1 l2) (hab : R a b) :
    List.Forall₂ R (l1 ++ [a]) (l2 ++ [b]) := by
  induction h with
  | nil => simpa using List.Forall₂.cons hab List.Forall₂.nil
  | cons hx _ ih => exact List.Forall₂.cons hx ih

theorem forall₂_map_eq {R : α → β → Prop} {F : β → γ} {G : α → γ}
    (h : ∀ a b, R a b → F b = G a) :
    ∀ {as : List α} {bs : List β}, List.Forall₂ R as bs → bs.map F = as.map G := by
  intro as bs hf
  induction hf with
  | nil => rfl
  | cons hx _ ih => simp [List.map_cons, ih, h _ _ hx]

/-! ### Lemmas: interim string table -/

theorem bumpCount_length (l : List (String × Nat)) (i : Nat) :
    (bumpCount l i).length = l.length := by
  induction l generalizing i with
  | nil => rfl
  | cons e rest ih =>
    cases i with
    | zero => rfl
    | succ j => simp [bumpCount, ih]

theorem findStr_lt_length {l : List (String × Nat)} {s : String} {i : Nat}
    (h : findStr l s = some i) : i < l.length := by
  induction l generalizing i with
  | nil => simp [findStr] at h
  | cons e rest ih =>
    by_cases he : e.1 = s
    · simp [findStr, he] at h
      simp
      omega
    · simp [findStr, he] at h
      obtain ⟨j, hj, hji⟩ := h
      have := ih hj
      simp
      omega

theorem findStr_bumpCount (l : List (String × Nat)) (i : Nat) (s : String) :
    findStr (bumpCount l i) s = findStr l s := by
  induction l generalizing i with
  | nil => rfl
  | cons e rest ih =>
    cases i with
    | zero => simp [bumpCount, findStr]
    | succ j => simp [bumpCount, findStr, ih]

theorem findStr_append_self {l : List (String × Nat)} {s : String} (c : Nat)
    (h : findStr l s = none) : findStr (l ++ [(s, c)]) s = some l.length := by
  induction l with
  | nil => simp [findStr]
  | cons e rest ih =>
    by_cases he : e.1 = s
    · simp [findStr, he] at h
    · simp [findStr, he] at h ⊢
      simp [ih h]

theorem record_string_empty (st : StringTable) : st.record_string "" = (0, st) := rfl

theorem record_string_eq_zero {st : StringTable} {s : String} :
    (st.record_string s).1 = 0 ↔ s = "" := by
  unfold StringTable.record_string
  by_cases h : s = ""
  · simp [h]
  · simp [h]
    cases hf : findStr st.entries s <;> simp

theorem record_string_size_mono (st : StringTable) (s : String) :
    st.entries.length ≤ (st.record_string s).2.entries.length := by
  unfold StringTable.record_string
  by_cases h : s = ""
  · simp [h]
  · simp [h]
    cases hf : findStr st.entries s with
    | none => simp
    | some i => simp [bumpCount_length]

theorem record_string_le_size (st : StringTable) (s : String) :
    (st.record_string s).1 ≤ (st.record_string s).2.entries.length := by
  unfold StringTable.record_string
  by_cases h : s = ""
  · simp [h]
  · simp [h]
    cases hf : findStr st.entries s with
    | none => simp
    | some i =>
      have := findStr_lt_length hf
      simp [bumpCount_length]
      omega

theorem record_string_stable {st : StringTable} {s : String} (h : s ≠ "") :
    ((st.record_string s).2.record_string s).1 = (st.record_string s).1 := by
  unfold StringTable.record_string
  simp [h]
  cases hf : findStr st.entries s with
  | none => simp [findStr_append_self 1 hf]
  | some i => simp [findStr_bumpCount, hf]

theorem map_string_id_zero (st : StringTable) : st.map_string_id 0 = 0 := rfl

theorem map_string_id_pos (st : StringTable) {i : Nat} (h1 : 0 < i)
    (h2 : i ≤ st.entries.length) : 0 < st.map_string_id i := by
  unfold StringTable.map_string_id
  rw [if_neg (by omega)]
  cases hget : st.entries[i - 1]? with
  | none =>
    have := List.getElem?_eq_none_iff.mp hget
    omega
  | some e => simp


/-! ### Lemmas: tag recording -/

theorem recordKeysVals_count_zero (st : StringTable) (tags : List (String × String)) :
    ((recordKeysVals st tags).1).count 0 =
      tags.countP (fun t => t.1 == "") + tags.countP (fun t => t.2 == "") := by
  induction tags generalizing st with
  | nil => rfl
  | cons t rest ih =>
    obtain ⟨k, v⟩ := t
    simp only [recordKeysVals, List.count_cons, List.countP_cons, ih]
    by_cases hk : k = "" <;> by_cases hv : v = "" <;>
      simp [hk, hv, record_string_eq_zero, Nat.beq_eq_true_eq] <;> omega

theorem recordKeysVals_size_mono (st : StringTable) (tags : List (String × String)) :
    st.entries.length ≤ ((recordKeysVals st tags).2).entries.length := by
  induction tags generalizing st with
  | nil => exact Nat.le_refl _
  | cons t rest ih =>
    obtain ⟨k, v⟩ := t
    simp only [recordKeysVals]
    calc st.entries.length ≤ (st.record_string k).2.entries.length :=
          record_string_size_mono st k
      _ ≤ ((st.record_string k).2.record_string v).2.entries.length :=
          record_string_size_mono _ v
      _ ≤ _ := ih _

theorem recordKeysVals_bounds (st : StringTable) (tags : List (String × String)) :
    ∀ e ∈ (recordKeysVals st tags).1, e ≤ ((recordKeysVals st tags).2).entries.length := by
  induction tags generalizing st with
  | nil => simp [recordKeysVals]
  | cons t rest ih =>
    obtain ⟨k, v⟩ := t
    simp only [recordKeysVals, List.mem_cons]
    intro e he
    rcases he with h | h | h
    · subst h
      calc (st.record_string k).1 ≤ (st.record_string k).2.entries.length :=
            record_string_le_size st k
        _ ≤ ((st.record_string k).2.record_string v).2.entries.length :=
            record_string_size_mono _ v
        _ ≤ _ := recordKeysVals_size_mono _ rest
    · subst h
      calc ((st.record_string k).2.record_string v).1
          ≤ ((st.record_string k).2.record_string v).2.entries.length :=
            record_string_le_size _ v
        _ ≤ _ := recordKeysVals_size_mono _ rest
    · exact ih _ e h

/-! ### Lemmas: flush-time remapping -/

theorem remap_entry_zero (st : StringTable) : remap_keys_vals_entry st 0 = 0 := rfl

theorem remap_entry_ne_zero (st : StringTable) {e : Nat} (he : e ≠ 0)
    (hb : e ≤ st.entries.length) : remap_keys_vals_entry st e ≠ 0 := by
  unfold remap_keys_vals_entry
  by_cases h : 0 < e % 65536
  · simp only [h, if_pos]
    have h1 : e % 65536 ≤ e := Nat.mod_le e 65536
    have := map_string_id_pos st h (Nat.le_trans h1 hb)
    omega
  · simp only [h, if_neg, if_false]
    simpa using he

theorem remap_count_zero (st : StringTable) (kvs : List Nat)
    (hb : ∀ e ∈ kvs, e ≤ st.entries.length) :
    (kvs.map (remap_keys_vals_entry st)).count 0 = kvs.count 0 := by
  induction kvs with
  | nil => rfl
  | cons e rest ih =>
    simp only [List.map_cons, List.count_cons]
    rw [ih (fun x hx => hb x (List.mem_cons_of_mem e hx))]
    by_cases h0 : e = 0
    · subst h0
      rw [remap_entry_zero]
    · have := remap_entry_ne_zero st h0 (hb e (List.mem_cons_self e rest))
      simp [h0, this]

theorem rewrite_user_sids_head (st : StringTable) (prev kv : Nat) (rest : List Nat) :
    ((rewrite_user_sids st prev (kv :: rest)).1).head? =
      some (deltaU32 prev (st.map_string_id kv % 65536)) := by
  simp [rewrite_user_sids]

theorem rewrite_user_sids_adjacent (st : StringTable) (sids : List Nat) :
    ∀ (prev j : Nat) (a : Nat), sids[j]? = some a → sids[j + 1]? = some a →
      ((rewrite_user_sids st prev sids).1)[j + 1]? = some 0 := by
  induction sids with
  | nil => intro prev j a h1 _; simp at h1
  | cons kv rest ih =>
    intro prev j a h1 h2
    cases j with
    | zero =>
      simp at h1
      subst h1
      cases rest with
      | nil => simp at h2
      | cons b rest2 =>
        simp at h2
        subst h2
        simp [rewrite_user_sids, deltaU32_self]
    | succ j2 =>
      have := ih (st.map_string_id kv % 65536) j2 a (by simpa using h1) (by simpa using h2)
      simpa [rewrite_user_sids] using this

theorem rewrite_user_sids_undelta (st : StringTable) (sids : List Nat) :
    ∀ prev, prev < u32 →
      undeltaU32 prev (rewrite_user_sids st prev sids).1 =
        sids.map (fun kv => st.map_string_id kv % 65536) := by
  induction sids with
  | nil => intro prev _; rfl
  | cons kv rest ih =>
    intro prev hp
    have hfid : st.map_string_id kv % 65536 < u32 := by
      have := Nat.mod_lt (st.map_string_id kv) (by norm_num : 0 < 65536)
      unfold u32
      omega
    simp only [rewrite_user_sids, undeltaU32, List.map_cons]
    have hv : (prev + deltaU32 prev (st.map_string_id kv % 65536)) % u32 =
        st.map_string_id kv % 65536 := by
      unfold deltaU32 u32 at *
      omega
    rw [hv, ih _ hfid]

/-! ### Lemmas: relation members -/

theorem encodeMemberType_n : encodeMemberType 'n' = .ok MEMBER_NODE := rfl

theorem encodeMemberType_w : encodeMemberType 'w' = .ok MEMBER_WAY := rfl

theorem encodeMemberType_r : encodeMemberType 'r' = .ok MEMBER_RELATION := rfl

theorem encodeMemberType_unknown {c : Char} (h1 : c ≠ 'n') (h2 : c ≠ 'w') (h3 : c ≠ 'r') :
    encodeMemberType c = .error .InvalidMemberType := by
  simp [encodeMemberType, h1, h2, h3]

theorem processMembers_error_shape (ms : List RelationMember) :
    ∀ (st : StringTable) (prev : Int) (e : EncodingError),
      processMembers st prev ms = .error e → e = .InvalidMemberType := by
  induction ms with
  | nil => intro st prev e h; simp [processMembers] at h
  | cons m rest ih =>
    intro st prev e h
    simp only [processMembers] at h
    cases ht : encodeMemberType m.type with
    | error e2 =>
      rw [ht] at h
      have : e2 = EncodingError.InvalidMemberType := by
        unfold encodeMemberType at ht
        by_cases h1 : m.type = 'n' <;> by_cases h2 : m.type = 'w' <;>
          by_cases h3 : m.type = 'r' <;> simp [h1, h2, h3] at ht <;> simp [ht]
      simp at h
      rw [← h]
      exact this
    | ok t =>
      rw [ht] at h
      cases hr : processMembers (st.record_string m.role).2 m.ref rest with
      | error e2 =>
        rw [hr] at h
        simp at h
        subst h
        exact ih _ _ _ hr
      | ok r =>
        rw [hr] at h
        simp at h
  

theorem processMembers_ok_roles (ms : List RelationMember) :
    ∀ (st : StringTable) (prev : Int) r, processMembers st prev ms = .ok r →
      ∀ (j : Nat) (m : RelationMember), ms[j]? = some m → m.role = "" → r.1[j]? = some 0 := by
  induction ms with
  | nil => intro st prev r _ j m hm; simp at hm
  | cons m0 rest ih =>
    intro st prev r h j m hm hrole
    simp only [processMembers] at h
    cases ht : encodeMemberType m0.type with
    | error e => rw [ht] at h; simp at h
    | ok t =>
      rw [ht] at h
      cases hr : processMembers (st.record_string m0.role).2 m0.ref rest with
      | error e => rw [hr] at h; simp at h
      | ok r2 =>
        rw [hr] at h
        simp at h
        cases j with
        | zero =>
          simp at hm
          subst hm
          rw [← h]
          simp [hrole, record_string_empty]
        | succ j2 =>
          rw [← h]
          simp only [List.getElem?_cons_succ]
          exact ih _ _ _ hr j2 m (by simpa using hm) hrole

theorem processMembers_types (ms : List RelationMember) :
    ∀ (st : StringTable) (prev : Int) r, processMembers st prev ms = .ok r →
      List.Forall₂ (fun m t => encodeMemberType m.type = .ok t) ms r.2.2.1 := by
  induction ms with
  | nil =>
    intro st prev r h
    simp [processMembers] at h
    rw [← h]
    exact List.Forall₂.nil
  | cons m0 rest ih =>
    intro st prev r h
    simp only [processMembers] at h
    cases ht : encodeMemberType m0.type with
    | error e => rw [ht] at h; simp at h
    | ok t =>
      rw [ht] at h
      cases hr : processMembers (st.record_string m0.role).2 m0.ref rest with
      | error e => rw [hr] at h; simp at h
      | ok r2 =>
        rw [hr] at h
        simp at h
        rw [← h]
        exact List.Forall₂.cons ht (ih _ _ _ hr)

theorem processMembers_invalid (ms : List RelationMember) :
    ∀ (st : StringTable) (prev : Int),
      (∃ m ∈ ms, encodeMemberType m.type = .error .InvalidMemberType) →
      processMembers st prev ms = .error .InvalidMemberType := by
  induction ms with
  | nil => intro st prev h; simp at h
  | cons m0 rest ih =>
    intro st prev h
    simp only [processMembers]
    cases ht : encodeMemberType m0.type with
    | error e =>
      have : e = EncodingError.InvalidMemberType := by
        unfold encodeMemberType at ht
        by_cases h1 : m0.type = 'n' <;> by_cases h2 : m0.type = 'w' <;>
          by_cases h3 : m0.type = 'r' <;> simp [h1, h2, h3] at ht <;> simp [ht]
      rw [this]
    | ok t =>
      obtain ⟨m, hm, hbad⟩ := h
      rcases List.mem_cons.mp hm with h0 | h0
      · subst h0
        rw [ht] at hbad
        simp at hbad
      · rw [ih _ _ ⟨m, h0, hbad⟩]

theorem processMembers_valid_ok (ms : List RelationMember) :
    ∀ (st : StringTable) (prev : Int),
      (∀ m ∈ ms, ∃ t, encodeMemberType m.type = .ok t) →
      ∃ r, processMembers st prev ms = .ok r := by
  induction ms with
  | nil => intro st prev _; exact ⟨_, rfl⟩
  | cons m0 rest ih =>
    intro st prev h
    obtain ⟨t, ht⟩ := h m0 (List.mem_cons_self m0 rest)
    obtain ⟨r2, hr⟩ := ih (st.record_string m0.role).2 m0.ref
      (fun m hm => h m (List.mem_cons_of_mem m0 hm))
    refine ⟨((st.record_string m0.role).1 :: r2.1, (m0.ref - prev) :: r2.2.1,
      t :: r2.2.2.1, r2.2.2.2), ?_⟩
    simp only [processMembers, ht, hr]


/-! ### Lemmas: the node ingestion pipeline -/

theorem PBF_node_no_flush (w : PBFWriter) (n : OSMNode)
    (h1 : ¬ max_block_contents ≤ w.primitive_block_contents)
    (h2 : ¬ max_uncompressed_blob_size * buffer_fill_percent / 100 < w.primitive_block_size)
    (hdense : w.m_use_dense_format = true)
    (hmeta : w.m_should_add_metadata = true) :
    PBF.node w n =
      { w with
        primitive_block_contents := w.primitive_block_contents + 1
        pbf_nodes := some
          { nodes := (w.pbf_nodes.getD ⟨[], none⟩).nodes
            dense := some
              { ids := ((w.pbf_nodes.getD ⟨[], none⟩).dense.getD emptyDense).ids ++
                  [n.id - w.m_delta_id]
                lons := ((w.pbf_nodes.getD ⟨[], none⟩).dense.getD emptyDense).lons ++
                  [lonlat2int w.m_location_granularity n.lon - w.m_delta_lon]
                lats := ((w.pbf_nodes.getD ⟨[], none⟩).dense.getD emptyDense).lats ++
                  [lonlat2int w.m_location_granularity n.lat - w.m_delta_lat]
                keys_vals := ((w.pbf_nodes.getD ⟨[], none⟩).dense.getD emptyDense).keys_vals ++
                  (recordKeysVals w.string_table n.tags).1 ++ [0]
                denseinfo := some
                  { version := (((w.pbf_nodes.getD ⟨[], none⟩).dense.getD
                      emptyDense).denseinfo.getD emptyDenseInfo).version ++ [n.version]
                    visible :=
                      if w.m_add_visible then
                        (((w.pbf_nodes.getD ⟨[], none⟩).dense.getD
                          emptyDense).denseinfo.getD emptyDenseInfo).visible ++ [n.visible]
                      else
                        (((w.pbf_nodes.getD ⟨[], none⟩).dense.getD
                          emptyDense).denseinfo.getD emptyDenseInfo).visible
                    timestamp := (((w.pbf_nodes.getD ⟨[], none⟩).dense.getD
                      emptyDense).denseinfo.getD emptyDenseInfo).timestamp ++
                      [timestamp2int w.m_date_granularity n.timestamp - w.m_delta_timestamp]
                    changeset := (((w.pbf_nodes.getD ⟨[], none⟩).dense.getD
                      emptyDense).denseinfo.getD emptyDenseInfo).changeset ++
                      [n.changeset - w.m_delta_changeset]
                    uid := (((w.pbf_nodes.getD ⟨[], none⟩).dense.getD
                      emptyDense).denseinfo.getD emptyDenseInfo).uid ++
                      [n.uid - w.m_delta_uid]
                    user_sid := (((w.pbf_nodes.getD ⟨[], none⟩).dense.getD
                      emptyDense).denseinfo.getD emptyDenseInfo).user_sid ++
                      [((recordKeysVals w.string_table n.tags).2.record_string n.user).1] } } }
        string_table := ((recordKeysVals w.string_table n.tags).2.record_string n.user).2
        m_delta_id := n.id
        m_delta_lon := lonlat2int w.m_location_granularity n.lon
        m_delta_lat := lonlat2int w.m_location_granularity n.lat
        m_delta_timestamp := timestamp2int w.m_date_granularity n.timestamp
        m_delta_changeset := n.changeset
        m_delta_uid := n.uid } := by
  cases hpn : w.pbf_nodes with
  | none =>
    simp [PBF.node, check_block_contents_counter, write_dense_node, if_neg h1, if_neg h2,
      hdense, hmeta, hpn, emptyDense, emptyDenseInfo]
  | some gr =>
    simp [PBF.node, check_block_contents_counter, write_dense_node, if_neg h1, if_neg h2,
      hdense, hmeta, hpn]


theorem node_step (g dg : Int) (b : Bool) (w : PBFWriter) (cur : List OSMNode) (n : OSMNode)
    (hcfg : ConfigOK g dg b w) (hbs : BlockState g dg b w cur) (hlen : cur.length < 8000) :
    ConfigOK g dg b (PBF.node w n) ∧ BlockState g dg b (PBF.node w n) (cur ++ [n]) ∧
      (PBF.node w n).output = w.output := by
  obtain ⟨hdense, hmeta, hvis, hg, hdg⟩ := hcfg
  obtain ⟨hcnt, hsz, husid, hid, hlon, hlat, hts, hcs, huid, hways, hrels, hnone, hsome⟩ := hbs
  have h1 : ¬ max_block_contents ≤ w.primitive_block_contents := by
    rw [hcnt]; unfold max_block_contents; omega
  have h2 : ¬ max_uncompressed_blob_size * buffer_fill_percent / 100 <
      w.primitive_block_size := by
    rw [hsz]; unfold max_uncompressed_blob_size buffer_fill_percent; omega
  rw [PBF_node_no_flush w n h1 h2 hdense hmeta]
  have hmono1 : w.string_table.entries.length ≤
      (recordKeysVals w.string_table n.tags).2.entries.length :=
    recordKeysVals_size_mono _ _
  have hmono2 : (recordKeysVals w.string_table n.tags).2.entries.length ≤
      ((recordKeysVals w.string_table n.tags).2.record_string n.user).2.entries.length :=
    record_string_size_mono _ _
  refine ⟨⟨by simp [hdense], by simp [hmeta], by simp [hvis], by simp [hg], by simp [hdg]⟩,
    ⟨?_, ?_, ?_, ?_, ?_, ?_, ?_, ?_, ?_, ?_, ?_, ?_, ?_⟩, by simp⟩
  · simp [hcnt]
  · simp [hsz]
  · simp [husid]
  · simp [List.map_append, List.getLastD_concat]
  · simp [hg, List.map_append, List.getLastD_concat]
  · simp [hg, List.map_append, List.getLastD_concat]
  · simp [hdg, List.map_append, List.getLastD_concat]
  · simp [List.map_append, List.getLastD_concat]
  · simp [List.map_append, List.getLastD_concat]
  · simp [hways]
  · simp [hrels]
  · simp
  · intro _
    by_cases hc : cur = []
    · subst hc
      rw [hnone rfl]
      refine ⟨_, rfl, ⟨?_, ?_, ?_, ?_, ?_⟩, ?_⟩
      · simp [emptyDense, deltaEncode, hid, List.getLastD]
      · simp [emptyDense, deltaEncode, hlon, hg, List.getLastD]
      · simp [emptyDense, deltaEncode, hlat, hg, List.getLastD]
      · simp only [emptyDense, List.nil_append, List.count_append,
          recordKeysVals_count_zero, List.map_cons, List.map_nil, List.sum_cons,
          List.sum_nil, nodeZeroCount]
        simp [List.count_cons]
        omega
      · refine ⟨_, rfl, by simp [emptyDense, emptyDenseInfo], ?_, ?_, ?_, ?_⟩
        · cases b <;> simp [emptyDense, emptyDenseInfo, hvis]
        · simp [emptyDense, emptyDenseInfo, deltaEncode, hts, hdg, List.getLastD]
        · simp [emptyDense, emptyDenseInfo, deltaEncode, hcs, List.getLastD]
        · simp [emptyDense, emptyDenseInfo, deltaEncode, huid, List.getLastD]
      · intro e he
        simp [emptyDense] at he
        rcases he with he | he
        · exact Nat.le_trans (recordKeysVals_bounds _ _ e he) hmono2
        · simp [he]
    · obtain ⟨d, hpn, ⟨hids, hlons, hlats, hcount, di, hdi, hver, hvisc, htsc, hcsc, huidc⟩,
        hbound⟩ := hsome hc
      rw [hpn]
      refine ⟨_, rfl, ⟨?_, ?_, ?_, ?_, ?_⟩, ?_⟩
      · simp only [Option.getD_some, List.map_append, List.map_cons, List.map_nil]
        rw [deltaEncode_concat, hids, hid]
      · simp only [Option.getD_some, List.map_append, List.map_cons, List.map_nil]
        rw [deltaEncode_concat, hlons, hlon, hg]
      · simp only [Option.getD_some, List.map_append, List.map_cons, List.map_nil]
        rw [deltaEncode_concat, hlats, hlat, hg]
      · simp only [Option.getD_some, List.count_append, List.map_append,
          List.sum_append, recordKeysVals_count_zero, hcount]
        simp [List.count_cons, nodeZeroCount]
        omega
      · refine ⟨_, rfl, ?_, ?_, ?_, ?_, ?_⟩
        · simp only [Option.getD_some, hdi, List.map_append, List.map_cons, List.map_nil]
          rw [hver]
        · simp only [Option.getD_some, hdi]
          cases b <;> simp [hvis, hvisc, List.map_append]
        · simp only [Option.getD_some, hdi, List.map_append, List.map_cons, List.map_nil]
          rw [deltaEncode_concat, htsc, hts, hdg]
        · simp only [Option.getD_some, hdi, List.map_append, List.map_cons, List.map_nil]
          rw [deltaEncode_concat, hcsc, hcs]
        · simp only [Option.getD_some, hdi, List.map_append, List.map_cons, List.map_nil]
          rw [deltaEncode_concat, huidc, huid]
      · intro e he
        simp only [Option.getD_some, List.mem_append, List.mem_singleton] at he
        rcases he with (he | he) | he
        · exact Nat.le_trans (hbound e he) (Nat.le_trans hmono1 hmono2)
        · exact Nat.le_trans (recordKeysVals_bounds _ _ e he) hmono2
        · simp [he]


theorem dropLast_concat_getLastD : ∀ {l : List α}, l ≠ [] → ∀ d : α,
    l.dropLast ++ [l.getLastD d] = l
  | [a], _, d => by simp [List.getLastD]
  | a :: b :: bs, _, d => by
    have hrec := dropLast_concat_getLastD (l := b :: bs) (by simp) d
    rw [dropLast_cons_ne_nil a (by simp), getLastD_cons_ne_nil a (by simp)]
    simp only [List.cons_append, hrec]

theorem flush_block (g dg : Int) (b : Bool) (w : PBFWriter) (cur : List OSMNode)
    (hcfg : ConfigOK g dg b w) (hbs : BlockState g dg b w cur) (hne : cur ≠ []) :
    ConfigOK g dg b (store_primitive_block w) ∧
    BlockState g dg b (store_primitive_block w) [] ∧
    ∃ fr, (store_primitive_block w).output = w.output ++ [fr] ∧
      ∃ d2, FrameDense fr = some d2 ∧ ChunkDenseOK g dg b cur d2 := by
  obtain ⟨hdense, hmeta, hvis, hg, hdg⟩ := hcfg
  obtain ⟨hcnt, hsz, husid, hid, hlon, hlat, hts, hcs, huid, hways, hrels, hnone, hsome⟩ := hbs
  obtain ⟨d, hpn, ⟨hids, hlons, hlats, hcount, di, hdi, hver, hvisc, htsc, hcsc, huidc⟩,
    hbound⟩ := hsome hne
  refine ⟨⟨by simp [store_primitive_block, hdense], by simp [store_primitive_block, hmeta],
      by simp [store_primitive_block, hvis], by simp [store_primitive_block, hg],
      by simp [store_primitive_block, hdg]⟩,
    ⟨by simp [store_primitive_block], by simp [store_primitive_block],
      by simp [store_primitive_block], by simp [store_primitive_block, List.getLastD],
      by simp [store_primitive_block, List.getLastD],
      by simp [store_primitive_block, List.getLastD],
      by simp [store_primitive_block, List.getLastD],
      by simp [store_primitive_block, List.getLastD],
      by simp [store_primitive_block, List.getLastD],
      by simp [store_primitive_block], by simp [store_primitive_block],
      fun _ => by simp [store_primitive_block], fun h => absurd rfl h⟩, ?_⟩
  refine ⟨_, rfl, ?_⟩
  refine ⟨mapDense w.string_table w.m_delta_user_sid d, ?_, ?_, ?_, ?_, ?_, ?_⟩
  · simp [FrameDense, hpn]
  · simp [mapDense, hids]
  · simp [mapDense, hlons]
  · simp [mapDense, hlats]
  · simp only [mapDense]
    rw [remap_count_zero _ _ hbound, hcount]
  · refine ⟨{ di with
        user_sid := (rewrite_user_sids w.string_table w.m_delta_user_sid di.user_sid).1 },
      by simp [mapDense, hdi], ?_, ?_, ?_, ?_, ?_⟩
    · simpa using hver
    · simpa using hvisc
    · simpa using htsc
    · simpa using hcsc
    · simpa using huidc

theorem node_flush_eq (w : PBFWriter) (n : OSMNode)
    (h : max_block_contents ≤ w.primitive_block_contents) :
    PBF.node w n = PBF.node (store_primitive_block w) n := by
  have hc : (store_primitive_block w).primitive_block_contents = 0 := by
    simp [store_primitive_block]
  have hz : (store_primitive_block w).primitive_block_size = 0 := by
    simp [store_primitive_block]
  have hch : check_block_contents_counter w =
      check_block_contents_counter (store_primitive_block w) := by
    unfold check_block_contents_counter
    rw [if_pos h]
    simp only [hc, hz, max_block_contents, max_uncompressed_blob_size, buffer_fill_percent]
    norm_num
    exact ⟨hc, hz.symm⟩
  simp only [PBF.node, hch]

theorem build_block (g dg : Int) (b : Bool) (ns : List OSMNode) (w : PBFWriter)
    (hcfg : ConfigOK g dg b w) (hbs : BlockState g dg b w []) (hlen : ns.length ≤ 8000) :
    ConfigOK g dg b (runNodes w ns) ∧ BlockState g dg b (runNodes w ns) ns ∧
      (runNodes w ns).output = w.output := by
  induction ns using List.reverseRecOn with
  | nil => exact ⟨hcfg, hbs, rfl⟩
  | append_singleton xs x ih =>
    have hxs : xs.length < 8000 := by
      rw [List.length_append, List.length_singleton] at hlen
      omega
    obtain ⟨hc1, hb1, ho1⟩ := ih (Nat.le_of_lt hxs)
    have hfold : runNodes w (xs ++ [x]) = PBF.node (runNodes w xs) x := by
      simp [runNodes, List.foldl_append]
    obtain ⟨hc2, hb2, ho2⟩ := node_step g dg b (runNodes w xs) xs x hc1 hb1 hxs
    rw [hfold]
    exact ⟨hc2, hb2, ho2.trans ho1⟩

theorem runNodes_spec (g dg : Int) (b : Bool) :
    ∀ (ns : List OSMNode) (w : PBFWriter), ConfigOK g dg b w → BlockState g dg b w [] →
      ∃ frames, (runNodes w ns).output = w.output ++ frames ∧
        List.Forall₂ (fun c fr => ∃ d, FrameDense fr = some d ∧ ChunkDenseOK g dg b c d)
          (chunk8000 ns).dropLast frames ∧
        ConfigOK g dg b (runNodes w ns) ∧
        BlockState g dg b (runNodes w ns) ((chunk8000 ns).getLastD []) := by
  suffices H : ∀ (N : Nat) (ns : List OSMNode), ns.length = N → ∀ (w : PBFWriter),
      ConfigOK g dg b w → BlockState g dg b w [] →
      ∃ frames, (runNodes w ns).output = w.output ++ frames ∧
        List.Forall₂ (fun c fr => ∃ d, FrameDense fr = some d ∧ ChunkDenseOK g dg b c d)
          (chunk8000 ns).dropLast frames ∧
        ConfigOK g dg b (runNodes w ns) ∧
        BlockState g dg b (runNodes w ns) ((chunk8000 ns).getLastD []) from
    fun ns w hc hb => H ns.length ns rfl w hc hb
  intro N
  induction N using Nat.strong_induction_on with
  | _ N ih =>
    intro ns hN w hcfg hbs
    subst hN
    by_cases hsmall : ns.length ≤ 8000
    · obtain ⟨hc2, hb2, ho2⟩ := build_block g dg b ns w hcfg hbs hsmall
      refine ⟨[], by simp [ho2], ?_, hc2, ?_⟩
      · by_cases hnil : ns = []
        · subst hnil
          rw [chunk8000_nil]
          exact List.Forall₂.nil
        · rw [chunk8000_small ns hnil hsmall]
          exact List.Forall₂.nil
      · by_cases hnil : ns = []
        · subst hnil
          rw [chunk8000_nil]
          exact hb2
        · rw [chunk8000_small ns hnil hsmall]
          exact hb2
    · have hns_ne : ns ≠ [] := by
        intro h
        rw [h] at hsmall
        simp at hsmall
      have hclen : (ns.take 8000).length = 8000 := by
        rw [List.length_take]
        omega
      have hrest_ne : ns.drop 8000 ≠ [] := by
        intro h
        have := congrArg List.length h
        rw [List.length_drop] at this
        simp at this
        omega
      obtain ⟨hc1, hb1, ho1⟩ := build_block g dg b (ns.take 8000) w hcfg hbs
        (Nat.le_of_eq hclen)
      have hcfull : (ns.take 8000) ≠ [] := by
        intro h
        rw [h] at hclen
        simp at hclen
      obtain ⟨hc2, hb2, fr, hfr, d2, hfd, hok⟩ :=
        flush_block g dg b (runNodes w (ns.take 8000)) (ns.take 8000) hc1 hb1 hcfull
      have hcontents : max_block_contents ≤
          (List.foldl PBF.node w (ns.take 8000)).primitive_block_contents := by
        show max_block_contents ≤ (runNodes w (ns.take 8000)).primitive_block_contents
        rw [hb1.1, hclen]
        unfold max_block_contents
        omega
      have hsplit : runNodes w ns =
          runNodes (store_primitive_block (runNodes w (ns.take 8000))) (ns.drop 8000) := by
        conv_lhs => rw [← List.take_append_drop 8000 ns]
        unfold runNodes
        rw [List.foldl_append]
        cases hr : ns.drop 8000 with
        | nil => exact absurd hr hrest_ne
        | cons r rest2 =>
          simp only [List.foldl_cons]
          rw [node_flush_eq (List.foldl PBF.node w (ns.take 8000)) r hcontents]
      have hlt : (ns.drop 8000).length < ns.length := by
        rw [List.length_drop]
        omega
      obtain ⟨frames2, hout2, hfa2, hc3, hb3⟩ :=
        ih (ns.drop 8000).length hlt (ns.drop 8000) rfl
          (store_primitive_block (runNodes w (ns.take 8000))) hc2 hb2
      refine ⟨fr :: frames2, ?_, ?_, ?_, ?_⟩
      · rw [hsplit, hout2, hfr, ho1]
        simp
      · rw [chunk8000_of_ne_nil ns hns_ne,
          dropLast_cons_ne_nil _ (chunk8000_ne_nil _ hrest_ne)]
        exact List.Forall₂.cons ⟨d2, hfd, hok⟩ hfa2
      · rw [hsplit]
        exact hc3
      · rw [hsplit, chunk8000_of_ne_nil ns hns_ne,
          getLastD_cons_ne_nil _ (chunk8000_ne_nil _ hrest_ne)]
        exact hb3

theorem run_final_spec (g dg : Int) (b : Bool) (gen : String) (ns : List OSMNode) :
    List.Forall₂ (fun c fr => ∃ d, FrameDense fr = some d ∧ ChunkDenseOK g dg b c d)
      (chunk8000 ns)
      ((PBF.final (runNodes (PBFWriter.fresh true true true b g dg gen) ns)).output) := by
  have hcfg : ConfigOK g dg b (PBFWriter.fresh true true true b g dg gen) :=
    ⟨rfl, rfl, rfl, rfl, rfl⟩
  have hbs : BlockState g dg b (PBFWriter.fresh true true true b g dg gen) [] :=
    ⟨rfl, rfl, rfl, rfl, rfl, rfl, rfl, rfl, rfl, rfl, rfl, fun _ => rfl,
      fun h => absurd rfl h⟩
  obtain ⟨frames, hout, hfa, hc, hb⟩ :=
    runNodes_spec g dg b ns (PBFWriter.fresh true true true b g dg gen) hcfg hbs
  by_cases hnil : ns = []
  · subst hnil
    rw [chunk8000_nil]
    have : (PBF.final (runNodes (PBFWriter.fresh true true true b g dg gen) [])).output = [] := by
      simp [runNodes, PBF.final, PBFWriter.fresh]
    rw [this]
    exact List.Forall₂.nil
  · have hlast_ne : (chunk8000 ns).getLastD [] ≠ [] :=
      chunk8000_pieces_ne_nil ns _ (getLastD_mem (chunk8000_ne_nil ns hnil) [])
    have hpos : 0 < (runNodes (PBFWriter.fresh true true true b g dg gen) ns
        ).primitive_block_contents := by
      rw [hb.1]
      exact List.length_pos.mpr hlast_ne
    obtain ⟨hc2, hb2, fr, hfr, d2, hfd, hok⟩ := flush_block g dg b _ _ hc hb hlast_ne
    rw [PBF.final, if_pos hpos, hfr, hout]
    have hfresh : (PBFWriter.fresh true true true b g dg gen).output = [] := rfl
    rw [hfresh, List.nil_append]
    conv_lhs => rw [← dropLast_concat_getLastD (chunk8000_ne_nil ns hnil) []]
    exact forall₂_concat hfa ⟨d2, hfd, hok⟩


/-! ### Lemmas: character and string order facts for the big table -/

theorem charLt_toNat (a b : Char) : a < b ↔ a.toNat < b.toNat := by
  simp [Char.lt_def, UInt32.lt_def, BitVec.lt_def]
  rfl

theorem toNat_ofNat_valid {n : Nat} (h : n.isValidChar) : (Char.ofNat n).toNat = n := by
  simp [Char.ofNat, h, Char.ofNatAux, Char.toNat, UInt32.toNat]

theorem strLtB_single (a b : Char) : strLtB (String.mk [a]) (String.mk [b]) = decide (a < b) := by
  show charListLt [a] [b] = decide (a < b)
  unfold charListLt
  by_cases h : a < b
  · simp [h]
  · by_cases h2 : b < a <;> simp [h, h2, charListLt]

theorem idxChar_toNat (n : Nat) (h : n < 65536) :
    (idxChar n).toNat = if n < 55296 then n else n + 2048 := by
  unfold idxChar
  by_cases h1 : n < 55296
  · rw [if_pos h1, if_pos h1, toNat_ofNat_valid (Or.inl h1)]
  · rw [if_neg h1, if_neg h1, toNat_ofNat_valid (Or.inr (by omega))]

theorem idxChar_lt_iff (n m : Nat) (hn : n < 65536) (hm : m < 65536) :
    (idxChar n < idxChar m) ↔ n < m := by
  rw [charLt_toNat, idxChar_toNat n hn, idxChar_toNat m hm]
  by_cases h1 : n < 55296 <;> by_cases h2 : m < 55296 <;> simp [h1, h2] <;> omega

theorem idxChar_lt_big (n : Nat) (h : n < 65536) : idxChar n < Char.ofNat 131072 := by
  rw [charLt_toNat, idxChar_toNat n h, toNat_ofNat_valid (Or.inr (by omega))]
  by_cases h1 : n < 55296 <;> simp [h1] <;> omega

theorem countB_cons {α : Type} (p : α → Bool) (x : α) (l : List α) :
    countB p (x :: l) = (cond (p x) 1 0) + countB p l := rfl

theorem rangeAsc_succ (s m : Nat) : rangeAsc s (m + 1) = s :: rangeAsc (s + 1) m := rfl

theorem rangeAsc_getElem (n : Nat) : ∀ (s i : Nat), i < n →
    (rangeAsc s n)[i]? = some (s + i) := by
  induction n with
  | zero => intro s i h; omega
  | succ m ih =>
    intro s i h
    match i with
    | 0 =>
        rw [rangeAsc_succ, List.getElem?_cons_zero]
        simp
    | j + 1 =>
        rw [rangeAsc_succ, List.getElem?_cons_succ, ih (s + 1) j (by omega)]
        congr 1
        omega

theorem countB_map_rangeAsc (f : Nat → String × Nat) (p : String × Nat → Bool) (k : Nat) :
    ∀ (m s : Nat), (∀ a, s ≤ a → a < s + m → p (f a) = decide (a < k)) →
      countB p ((rangeAsc s m).map f) = min (s + m) k - min s k := by
  intro m
  induction m with
  | zero =>
    intro s hp
    show countB p [] = min (s + 0) k - min s k
    show 0 = min (s + 0) k - min s k
    omega
  | succ j ih =>
    intro s hp
    rw [rangeAsc_succ, List.map_cons, countB_cons,
      ih (s + 1) (fun a h1 h2 => hp a (by omega) (by omega)), hp s (Nat.le_refl s) (by omega)]
    by_cases h : s < k <;> simp [h] <;> omega

theorem map_string_id_succ {st : StringTable} {j : Nat} {e : String × Nat}
    (h2 : st.entries[j]? = some e) :
    st.map_string_id (j + 1) = 1 + countB (rankPred e) st.entries := by
  unfold StringTable.map_string_id
  rw [if_neg (by omega), show (j + 1) - 1 = j from by omega, h2]

theorem bigST_entries_def : bigST.entries = (String.mk [Char.ofNat 131072], 1) ::
    (rangeAsc 0 65536).map (fun n => (String.mk [idxChar n], 1)) := rfl

theorem bigST_map_one : bigST.map_string_id 1 = 65537 := by
  have h0 : bigST.entries[0]? = some (String.mk [Char.ofNat 131072], 1) := by
    rw [bigST_entries_def]
    exact List.getElem?_cons_zero
  rw [show (1 : Nat) = 0 + 1 from rfl]
  rw [map_string_id_succ h0]
  rw [bigST_entries_def]
  rw [countB_cons]
  have hself : rankPred (String.mk [Char.ofNat 131072], 1)
      (String.mk [Char.ofNat 131072], 1) = false := by
    show (decide ((1 : Nat) < 1) || ((1 : Nat) == 1 &&
      strLtB (String.mk [Char.ofNat 131072]) (String.mk [Char.ofNat 131072]))) = false
    rw [strLtB_single, decide_eq_false (lt_irrefl _)]
    rfl
  rw [hself]
  have hall := countB_map_rangeAsc (fun n => (String.mk [idxChar n], 1))
    (rankPred (String.mk [Char.ofNat 131072], 1)) 65536 65536 0 ?hp
  case hp =>
    intro a _ ha2
    show (decide ((1 : Nat) < 1) || ((1 : Nat) == 1 &&
      strLtB (String.mk [idxChar a]) (String.mk [Char.ofNat 131072]))) = decide (a < 65536)
    rw [strLtB_single, decide_eq_true (idxChar_lt_big a (by omega)),
      decide_eq_true (show a < 65536 from by omega)]
    rfl
  rw [hall]
  simp

theorem bigST_map_top : bigST.map_string_id 65537 = 65536 := by
  have h0 : bigST.entries[65536]? = some (String.mk [idxChar 65535], 1) := by
    rw [bigST_entries_def, show (65536 : Nat) = 65535 + 1 from rfl,
      List.getElem?_cons_succ, List.getElem?_map, rangeAsc_getElem 65536 0 65535 (by omega)]
    rfl
  rw [show (65537 : Nat) = 65536 + 1 from rfl, map_string_id_succ h0, bigST_entries_def,
    countB_cons]
  have hbig : rankPred (String.mk [idxChar 65535], 1)
      (String.mk [Char.ofNat 131072], 1) = false := by
    show (decide ((1 : Nat) < 1) || ((1 : Nat) == 1 &&
      strLtB (String.mk [Char.ofNat 131072]) (String.mk [idxChar 65535]))) = false
    have hnot : ¬ (Char.ofNat 131072 < idxChar 65535) := by
      rw [charLt_toNat, idxChar_toNat 65535 (by omega), toNat_ofNat_valid (Or.inr (by omega))]
      norm_num
    rw [strLtB_single, decide_eq_false hnot]
    rfl
  rw [hbig]
  have hall := countB_map_rangeAsc (fun n => (String.mk [idxChar n], 1))
    (rankPred (String.mk [idxChar 65535], 1)) 65535 65536 0 ?hp
  case hp =>
    intro a _ ha2
    show (decide ((1 : Nat) < 1) || ((1 : Nat) == 1 &&
      strLtB (String.mk [idxChar a]) (String.mk [idxChar 65535]))) = decide (a < 65535)
    rw [strLtB_single, decide_eq_decide.mpr (idxChar_lt_iff a 65535 (by omega) (by omega))]
    rfl
  rw [hall]
  simp



/-! ### Claim theorems -/

/-- C10 counterexample: the claim says a DenseInfo.user_sid entry is narrowed to
16 bits before the interim-to-final remap; in the code the remap runs on the
unnarrowed entry and only its result is narrowed.  On a table with 65537
recorded strings whose first recorded string sorts last, the entry 65537 is
emitted as delta 0 by the source translation, while the claim's
narrow-before-remap processing would emit delta 1. -/
theorem claim_C10_counterexample :
    (rewrite_user_sids bigST 0 [65537]).1 = [0] ∧
    (rewrite_user_sids_narrow_first bigST 0 [65537]).1 = [1] := by
  constructor
  · show [deltaU32 0 (bigST.map_string_id 65537 % 65536)] = [0]
    rw [bigST_map_top]
    rfl
  · show [deltaU32 0 (bigST.map_string_id (65537 % 65536) % 65536)] = [1]
    rw [show (65537 % 65536 : Nat) = 1 from rfl, bigST_map_one]
    rfl

/-- C10 amended: in the flush-time rewrite, each keys_vals entry is narrowed to
16 bits before the zero test and the remap, so an entry that is a positive
multiple of two to the 16 is left in the stream unmapped and an entry with a
positive residue is processed as its value modulo two to the 16; each
DenseInfo.user_sid entry however is passed to the remap unnarrowed, and it is
the remapped final id that is narrowed to 16 bits before the delta tracker. -/
theorem claim_C10 :
    (∀ (st : StringTable) (kv : Nat), kv % 65536 = 0 → remap_keys_vals_entry st kv = kv) ∧
    (∀ (st : StringTable) (kv : Nat), 0 < kv % 65536 →
      remap_keys_vals_entry st kv = st.map_string_id (kv % 65536)) ∧
    (∀ (st : StringTable) (prev kv : Nat) (rest : List Nat),
      (rewrite_user_sids st prev (kv :: rest)).1 =
        deltaU32 prev (st.map_string_id kv % 65536) ::
          (rewrite_user_sids st (st.map_string_id kv % 65536) rest).1) := by
  refine ⟨?_, ?_, ?_⟩
  · intro st kv h
    unfold remap_keys_vals_entry
    rw [h]
    simp
  · intro st kv h
    unfold remap_keys_vals_entry
    simp [h]
  · intro st prev kv rest
    rfl

/-- C10 amended witness at concrete inputs. -/
theorem claim_C10_witness :
    ((65536 : Nat) % 65536 = 0) ∧
    (remap_keys_vals_entry StringTable.empty 65536 = 65536) ∧
    (0 < (3 : Nat) % 65536) ∧
    (remap_keys_vals_entry StringTable.empty 3 = StringTable.empty.map_string_id (3 % 65536)) :=
  ⟨by decide, claim_C10.1 StringTable.empty 65536 (by decide), by decide,
    claim_C10.2.1 StringTable.empty 3 (by decide)⟩

/-- C8 counterexample: the claim says every write is retried until complete or
fails with the I/O error, so a frame is never silently left partial.  In the
source each write call is only checked for a negative result: with write
results 4, 1, 1 for a frame whose blob header is two bytes, the second write
stores only one of the two header bytes, yet the operation succeeds, leaving
the frame partially written without any error. -/
theorem claim_C8_counterexample :
    store_blob_writes [] [9, 9] [7] 4 1 1 = .ok [0, 0, 0, 2, 9, 7] ∧
    [0, 0, 0, 2, 9, 7] ≠ [0, 0, 0, 2] ++ [9, 9] ++ [7] := by
  constructor
  · rfl
  · decide

/-- C8 amended: each of the three writes of a frame (4-byte big-endian header
length, serialized blob header, serialized blob) raises the I/O error exactly
when the underlying write call returns a negative result; a nonnegative result
is accepted as is, the first r bytes of the buffer being appended to the file,
with no completeness check and no retry. -/
theorem claim_C8 (file blobhead blob : List Nat) (r1 r2 r3 : Int) :
    ((0 ≤ r1 ∧ 0 ≤ r2 ∧ 0 ≤ r3) →
      store_blob_writes file blobhead blob r1 r2 r3 =
        .ok (file ++ (u32be blobhead.length).take r1.toNat ++ blobhead.take r2.toNat ++
          blob.take r3.toNat)) ∧
    ((r1 < 0 ∨ r2 < 0 ∨ r3 < 0) →
      store_blob_writes file blobhead blob r1 r2 r3 = .error .IoFailed) := by
  constructor
  · rintro ⟨h1, h2, h3⟩
    unfold store_blob_writes
    rw [if_neg (by omega), if_neg (by omega), if_neg (by omega)]
  · intro h
    unfold store_blob_writes
    by_cases h1 : r1 < 0
    · rw [if_pos h1]
    · rw [if_neg h1]
      by_cases h2 : r2 < 0
      · rw [if_pos h2]
      · rw [if_neg h2]
        have h3 : r3 < 0 := by
          rcases h with h | h | h
          · omega
          · omega
          · exact h
        rw [if_pos h3]

/-- C8 amended witness at concrete inputs, one for each branch. -/
theorem claim_C8_witness :
    ((0 : Int) ≤ 4 ∧ (0 : Int) ≤ 2 ∧ (0 : Int) ≤ 1) ∧
    store_blob_writes [] [9, 9] [7] 4 2 1 =
      .ok ([] ++ (u32be [9, 9].length).take (4 : Int).toNat ++ [9, 9].take (2 : Int).toNat ++
        [7].take (1 : Int).toNat) ∧
    ((-1 : Int) < 0 ∨ (2 : Int) < 0 ∨ (1 : Int) < 0) ∧
    store_blob_writes [] [9, 9] [7] (-1) 2 1 = .error .IoFailed :=
  ⟨by decide, (claim_C8 [] [9, 9] [7] 4 2 1).1 (by decide), by decide,
    (claim_C8 [] [9, 9] [7] (-1) 2 1).2 (by decide)⟩

/-- C9: init always adds the schema feature, adds DenseNodes exactly when the
dense format is used, adds HistoricalInformation exactly for the history file
variant, and emits the header block as the first and only frame of the fresh
session with blob-header type OSMHeader; a default session with no entities
that is finalized produces exactly that one frame with required features
OsmSchema-V0.6 and DenseNodes. -/
theorem claim_C9 :
    (∀ (dense compress meta history : Bool) (g dg : Int) (gen : String)
        (bounds : Option (ℚ × ℚ × ℚ × ℚ)),
      ∃ hb, (PBF.init (PBFWriter.fresh dense compress meta history g dg gen) bounds).output =
          [Frame.osmheader hb] ∧
        hb.required_features = ["OsmSchema-V0.6"] ++ (if dense then ["DenseNodes"] else []) ++
          (if history then ["HistoricalInformation"] else []) ∧
        "OsmSchema-V0.6" ∈ hb.required_features ∧
        ("DenseNodes" ∈ hb.required_features ↔ dense = true) ∧
        ("HistoricalInformation" ∈ hb.required_features ↔ history = true) ∧
        Frame.blobType (Frame.osmheader hb) = "OSMHeader") ∧
    ((PBF.final (PBF.init (PBFWriter.mkDefault "osmium") none)).output =
      [Frame.osmheader
        { required_features := ["OsmSchema-V0.6", "DenseNodes"]
          writingprogram := "osmium"
          bbox := none }]) := by
  constructor
  · intro dense compress meta history g dg gen bounds
    refine ⟨_, rfl, rfl, ?_, ?_, ?_, rfl⟩
    · cases dense <;> cases history <;> simp [PBFWriter.fresh]
    · cases dense <;> cases history <;> simp [PBFWriter.fresh]
    · cases dense <;> cases history <;> simp [PBFWriter.fresh]
  · rfl

/-- C2: each emitted DenseInfo.user_sid value is computed by first mapping the
recorded interim id to its final string-table id and only then passing that id
through the block-level user_sid delta tracker; recording the same user name
twice yields the same interim id, and two adjacent equal interim ids in the
user_sid column always produce an emitted delta of 0 at the second position,
whatever the interim numbering and the tracker's starting value. -/
theorem claim_C2 :
    (∀ (st : StringTable) (s : String), s ≠ "" →
      ((st.record_string s).2.record_string s).1 = (st.record_string s).1) ∧
    (∀ (st : StringTable) (prev kv : Nat) (rest : List Nat),
      ((rewrite_user_sids st prev (kv :: rest)).1).head? =
        some (deltaU32 prev (st.map_string_id kv % 65536))) ∧
    (∀ (st : StringTable) (prev j : Nat) (sids : List Nat) (a : Nat),
      sids[j]? = some a → sids[j + 1]? = some a →
      ((rewrite_user_sids st prev sids).1)[j + 1]? = some 0) := by
  refine ⟨?_, ?_, ?_⟩
  · intro st s h
    exact record_string_stable h
  · intro st prev kv rest
    exact rewrite_user_sids_head st prev kv rest
  · intro st prev j sids a h1 h2
    exact rewrite_user_sids_adjacent st sids prev j a h1 h2

/-- C2 witness at concrete inputs. -/
theorem claim_C2_witness :
    ("alice" ≠ "") ∧
    (((StringTable.empty.record_string "alice").2.record_string "alice").1 =
      (StringTable.empty.record_string "alice").1) ∧
    (([1, 1] : List Nat)[0]? = some 1) ∧ (([1, 1] : List Nat)[0 + 1]? = some 1) ∧
    ((rewrite_user_sids ⟨[("alice", 2)]⟩ 0 [1, 1]).1)[0 + 1]? = some 0 :=
  ⟨by decide, claim_C2.1 StringTable.empty "alice" (by decide), by decide, by decide,
    claim_C2.2.2 ⟨[("alice", 2)]⟩ 0 0 [1, 1] 1 (by decide) (by decide)⟩

/-- C5 counterexample: the claim states the final string table of the
single-sparse-node scenario is the empty string followed by amenity, cafe,
alice; with ties at usage count one broken by ascending string comparison the
code orders alice before amenity before cafe, which also matches the claim's
own indices keys = 2, vals = 3, user_sid = 1. -/
theorem claim_C5_counterexample :
    ((PBF.final (runNodes writerS2 [nodeS2])).output.map
      (fun fr => (FramePB fr).map (fun pb => pb.stringtable))) =
        [some ["", "alice", "amenity", "cafe"]] ∧
    (["", "alice", "amenity", "cafe"] ≠ ["", "amenity", "cafe", "alice"]) := by
  constructor
  · decide
  · decide

/-- C5 amended: the single-sparse-node scenario produces one data frame whose
string table is the empty string, alice, amenity, cafe in that order, and whose
node carries keys 2, vals 3, user string id 1, scaled longitude 135000000 and
scaled latitude 525000000. -/
theorem claim_C5 :
    (PBF.final (runNodes writerS2 [nodeS2])).output =
      [Frame.osmdata
        { stringtable := ["", "alice", "amenity", "cafe"]
          granularity := 100
          date_granularity := 1000
          nodesGroup := some
            { nodes :=
                [{ id := 42
                   keys := [2]
                   vals := [3]
                   info := some { visible := none, version := 1, timestamp := 1000000000, changeset := 7, uid := 3, user_sid := 1 }
                   lon := 135000000
                   lat := 525000000 }]
              dense := none }
          waysGroup := none
          relationsGroup := none }] := by
  decide


theorem forall₂_mem_right {R : α → β → Prop} :
    ∀ {as : List α} {bs : List β}, List.Forall₂ R as bs → ∀ {b}, b ∈ bs → ∃ a ∈ as, R a b := by
  intro as bs h
  induction h with
  | nil => intro b hb; simp at hb
  | cons hx hrest ih =>
    intro b hb
    rcases List.mem_cons.mp hb with h0 | h0
    · subst h0
      exact ⟨_, List.mem_cons_self _ _, hx⟩
    · obtain ⟨a, ha, hr⟩ := ih h0
      exact ⟨a, List.mem_cons_of_mem _ ha, hr⟩

theorem sum_map_one {f : α → Nat} : ∀ {l : List α}, (∀ x ∈ l, f x = 1) →
    (l.map f).sum = l.length := by
  intro l
  induction l with
  | nil => intro _; rfl
  | cons x xs ih =>
    intro h
    simp only [List.map_cons, List.sum_cons, List.length_cons,
      h x (List.mem_cons_self x xs), ih (fun y hy => h y (List.mem_cons_of_mem x hy))]
    omega

/-- C1: a flush fires at the start of an ingest call exactly when the entity
counter has reached max_block_contents, or, only when it has not, when the
estimated size exceeds 95 percent of the maximum uncompressed blob size; the
check precedes the encoding of the new entity, so 8001 ingested dense nodes
produce a first data block of exactly 8000 nodes and a second of 1. -/
theorem claim_C1 :
    (∀ w : PBFWriter, check_block_contents_counter w =
      if flush_condition w then
        { store_primitive_block w with primitive_block_contents := 1 }
      else { w with primitive_block_contents := w.primitive_block_contents + 1 }) ∧
    (∀ (g dg : Int) (b : Bool) (gen : String) (ns : List OSMNode), ns.length = 8001 →
      ((PBF.final (runNodes (PBFWriter.fresh true true true b g dg gen) ns)).output.map
        (fun fr => (FrameDense fr).map (fun d => d.ids.length))) = [some 8000, some 1]) := by
  constructor
  · intro w
    unfold check_block_contents_counter flush_condition
    by_cases h1 : max_block_contents ≤ w.primitive_block_contents
    · rw [if_pos h1]
      simp [h1, store_primitive_block]
    · rw [if_neg h1]
      have h1b : w.primitive_block_contents < max_block_contents := Nat.lt_of_not_le h1
      by_cases h2 : max_uncompressed_blob_size * buffer_fill_percent / 100 <
          w.primitive_block_size
      · rw [if_pos h2]
        simp [h1, h1b, h2, store_primitive_block]
      · rw [if_neg h2]
        simp [h1, h2]
  · intro g dg b gen ns hlen
    have hfa := run_final_spec g dg b gen ns
    have hmap := forall₂_map_eq
      (F := fun fr => (FrameDense fr).map (fun d => d.ids.length))
      (G := fun c => some c.length)
      (by
        rintro c fr ⟨d, hfd, hok⟩
        simp only [hfd, Option.map_some]
        simp [hok.1, deltaEncode_length]) hfa
    rw [hmap]
    have hns_ne : ns ≠ [] := by
      intro h
      rw [h] at hlen
      simp at hlen
    rw [chunk8000_of_ne_nil ns hns_ne]
    have hdrop_ne : ns.drop 8000 ≠ [] := by
      intro h
      have := congrArg List.length h
      rw [List.length_drop] at this
      simp at this
      omega
    rw [chunk8000_small (ns.drop 8000) hdrop_ne (by rw [List.length_drop]; omega)]
    simp [List.length_take, List.length_drop, hlen]

/-- C1 witness: 8001 concrete nodes yield data blocks of 8000 and 1 nodes. -/
theorem claim_C1_witness :
    (List.replicate 8001 nodePlain).length = 8001 ∧
    ((PBF.final (runNodes (PBFWriter.fresh true true true false 100 1000 "osmium")
        (List.replicate 8001 nodePlain))).output.map
      (fun fr => (FrameDense fr).map (fun d => d.ids.length))) = [some 8000, some 1] :=
  ⟨by simp only [List.length_replicate], claim_C1.2 100 1000 false "osmium"
    (List.replicate 8001 nodePlain) (by simp only [List.length_replicate])⟩

/-- C3 counterexample: the claim says the keys_vals stream of a flushed block
with K dense nodes holds exactly K zeros; a single node carrying a tag with an
empty value is recorded with interim id 0 for that value, so its block's
stream holds two zeros for one node, and 0 appears as a real string reference. -/
theorem claim_C3_counterexample :
    ((PBF.final (runNodes (PBFWriter.mkDefault "osmium") [nodeEmptyVal])).output.map
      (fun fr => (FrameDense fr).map (fun d => (d.keys_vals.count 0, d.ids.length)))) =
        [some (2, 1)] ∧ (2 ≠ 1) := by
  constructor
  · decide
  · decide

/-- C3 amended: for every flushed block of a dense-format session all of whose
nodes carry only nonempty tag keys and values, the keys_vals stream of the
block's dense section holds exactly as many zeros as the block holds nodes:
one separator per node and no zero as a real string reference. -/
theorem claim_C3 (g dg : Int) (b : Bool) (gen : String) (ns : List OSMNode)
    (htags : ∀ n ∈ ns, ∀ t ∈ n.tags, t.1 ≠ "" ∧ t.2 ≠ "") :
    ∀ fr ∈ (PBF.final (runNodes (PBFWriter.fresh true true true b g dg gen) ns)).output,
      ∀ d, FrameDense fr = some d → d.keys_vals.count 0 = d.ids.length := by
  intro fr hfr d hd
  obtain ⟨c, hc, d2, hfd2, hok⟩ := forall₂_mem_right (run_final_spec g dg b gen ns) hfr
  have hd2 : d2 = d := by
    rw [hfd2] at hd
    exact Option.some.inj hd
  subst hd2
  obtain ⟨hids, _, _, hcount, _⟩ := hok
  rw [hcount, hids, deltaEncode_length, List.length_map]
  apply sum_map_one
  intro n hn
  have hn_ns : n ∈ ns := by
    have : n ∈ (chunk8000 ns).flatten := List.mem_flatten.mpr ⟨c, hc, hn⟩
    rwa [chunk8000_flatten] at this
  unfold nodeZeroCount
  have h1 : n.tags.countP (fun t => t.1 == "") = 0 :=
    List.countP_eq_zero.mpr (fun t ht => by
      simp only [beq_iff_eq]
      exact (htags n hn_ns t ht).1)
  have h2 : n.tags.countP (fun t => t.2 == "") = 0 :=
    List.countP_eq_zero.mpr (fun t ht => by
      simp only [beq_iff_eq]
      exact (htags n hn_ns t ht).2)
  omega

/-- C3 amended witness: a concrete node with a nonempty tag. -/
theorem claim_C3_witness :
    (∀ n ∈ [nodePlain], ∀ t ∈ n.tags, t.1 ≠ "" ∧ t.2 ≠ "") ∧
    (∀ fr ∈ (PBF.final (runNodes (PBFWriter.fresh true true true false 100 1000 "osmium")
        [nodePlain])).output,
      ∀ d, FrameDense fr = some d → d.keys_vals.count 0 = d.ids.length) :=
  ⟨by decide, claim_C3 100 1000 false "osmium" [nodePlain] (by decide)⟩

/-- C4: flushing a block resets all seven block-level delta trackers to zero,
so their state never crosses a block boundary; consequently, for every data
frame of a dense-format session, the cumulative sum from zero of each emitted
delta column (id, lat, lon, timestamp, changeset, uid) reproduces the scaled
ingested values of that block's nodes, the first emitted dense id of each
block is the raw first id of the block, and the user_sid column rewritten at
flush time from tracker state zero reconstructs, modulo two to the 32, the
narrowed final string ids. -/
theorem claim_C4 :
    (∀ w : PBFWriter,
      (store_primitive_block w).m_delta_id = 0 ∧
      (store_primitive_block w).m_delta_lat = 0 ∧
      (store_primitive_block w).m_delta_lon = 0 ∧
      (store_primitive_block w).m_delta_timestamp = 0 ∧
      (store_primitive_block w).m_delta_changeset = 0 ∧
      (store_primitive_block w).m_delta_uid = 0 ∧
      (store_primitive_block w).m_delta_user_sid = 0) ∧
    (∀ (g dg : Int) (b : Bool) (gen : String) (ns : List OSMNode),
      ((PBF.final (runNodes (PBFWriter.fresh true true true b g dg gen) ns)).output.map
          (fun fr => (FrameDense fr).map (fun d => undelta 0 d.ids))) =
        (chunk8000 ns).map (fun c => some (c.map (fun n => n.id))) ∧
      ((PBF.final (runNodes (PBFWriter.fresh true true true b g dg gen) ns)).output.map
          (fun fr => (FrameDense fr).map (fun d => undelta 0 d.lons))) =
        (chunk8000 ns).map (fun c => some (c.map (fun n => lonlat2int g n.lon))) ∧
      ((PBF.final (runNodes (PBFWriter.fresh true true true b g dg gen) ns)).output.map
          (fun fr => (FrameDense fr).map (fun d => undelta 0 d.lats))) =
        (chunk8000 ns).map (fun c => some (c.map (fun n => lonlat2int g n.lat))) ∧
      ((PBF.final (runNodes (PBFWriter.fresh true true true b g dg gen) ns)).output.map
          (fun fr => ((FrameDense fr).bind (fun d => d.denseinfo)).map
            (fun di => undelta 0 di.timestamp))) =
        (chunk8000 ns).map (fun c => some (c.map (fun n => timestamp2int dg n.timestamp))) ∧
      ((PBF.final (runNodes (PBFWriter.fresh true true true b g dg gen) ns)).output.map
          (fun fr => ((FrameDense fr).bind (fun d => d.denseinfo)).map
            (fun di => undelta 0 di.changeset))) =
        (chunk8000 ns).map (fun c => some (c.map (fun n => n.changeset))) ∧
      ((PBF.final (runNodes (PBFWriter.fresh true true true b g dg gen) ns)).output.map
          (fun fr => ((FrameDense fr).bind (fun d => d.denseinfo)).map
            (fun di => undelta 0 di.uid))) =
        (chunk8000 ns).map (fun c => some (c.map (fun n => n.uid))) ∧
      ((PBF.final (runNodes (PBFWriter.fresh true true true b g dg gen) ns)).output.map
          (fun fr => (FrameDense fr).map (fun d => d.ids.head?))) =
        (chunk8000 ns).map (fun c => some ((c.map (fun n => n.id)).head?))) ∧
    (∀ (st : StringTable) (sids : List Nat),
      undeltaU32 0 (rewrite_user_sids st 0 sids).1 =
        sids.map (fun kv => st.map_string_id kv % 65536)) := by
  refine ⟨?_, ?_, ?_⟩
  · intro w
    exact ⟨rfl, rfl, rfl, rfl, rfl, rfl, rfl⟩
  · intro g dg b gen ns
    have hfa := run_final_spec g dg b gen ns
    refine ⟨?_, ?_, ?_, ?_, ?_, ?_, ?_⟩
    · exact forall₂_map_eq (by
        rintro c fr ⟨d, hfd, hok⟩
        rw [hfd]
        simp [hok.1, undelta_deltaEncode]) hfa
    · exact forall₂_map_eq (by
        rintro c fr ⟨d, hfd, hok⟩
        rw [hfd]
        simp [hok.2.1, undelta_deltaEncode]) hfa
    · exact forall₂_map_eq (by
        rintro c fr ⟨d, hfd, hok⟩
        rw [hfd]
        simp [hok.2.2.1, undelta_deltaEncode]) hfa
    · exact forall₂_map_eq (by
        rintro c fr ⟨d, hfd, hok⟩
        obtain ⟨di, hdi, hver, hvis, hts, hcs, huid⟩ := hok.2.2.2.2
        rw [hfd]
        simp [hdi, hts, undelta_deltaEncode]) hfa
    · exact forall₂_map_eq (by
        rintro c fr ⟨d, hfd, hok⟩
        obtain ⟨di, hdi, hver, hvis, hts, hcs, huid⟩ := hok.2.2.2.2
        rw [hfd]
        simp [hdi, hcs, undelta_deltaEncode]) hfa
    · exact forall₂_map_eq (by
        rintro c fr ⟨d, hfd, hok⟩
        obtain ⟨di, hdi, hver, hvis, hts, hcs, huid⟩ := hok.2.2.2.2
        rw [hfd]
        simp [hdi, huid, undelta_deltaEncode]) hfa
    · exact forall₂_map_eq (by
        rintro c fr ⟨d, hfd, hok⟩
        rw [hfd]
        simp [hok.1, deltaEncode_zero_head]) hfa
  · intro st sids
    exact rewrite_user_sids_undelta st sids 0 (by norm_num [u32])


theorem write_relation_eq (relSize : PBFRelation → Nat) (w : PBFWriter) (x : OSMRelation)
    (res : List Nat × List Int × List Nat × StringTable)
    (hres : processMembers (makeInfo w (recordTags w.string_table x.tags).2.2 x.version
      x.timestamp x.changeset x.uid x.user x.visible).2 0 x.members = .ok res) :
    write_relation relSize w x = .ok
      { w with
          pbf_relations := some (w.pbf_relations.getD [] ++
            [{ id := x.id
               keys := (recordTags w.string_table x.tags).1
               vals := (recordTags w.string_table x.tags).2.1
               info := (makeInfo w (recordTags w.string_table x.tags).2.2 x.version
                 x.timestamp x.changeset x.uid x.user x.visible).1
               roles_sid := res.1
               memids := res.2.1
               types := res.2.2.1 }])
          string_table := res.2.2.2
          primitive_block_size := w.primitive_block_size +
            relSize { id := x.id
                      keys := (recordTags w.string_table x.tags).1
                      vals := (recordTags w.string_table x.tags).2.1
                      info := (makeInfo w (recordTags w.string_table x.tags).2.2 x.version
                        x.timestamp x.changeset x.uid x.user x.visible).1
                      roles_sid := res.1
                      memids := res.2.1
                      types := res.2.2.1 } } := by
  simp only [write_relation, hres]

theorem write_relation_roles_zero (relSize : PBFRelation → Nat) (w : PBFWriter)
    (r : OSMRelation) (j : Nat) (m : RelationMember)
    (hj : r.members[j]? = some m) (hrole : m.role = "")
    (hval : ∀ m2 ∈ r.members, m2.type = 'n' ∨ m2.type = 'w' ∨ m2.type = 'r') :
    ∃ w2, write_relation relSize w r = .ok w2 ∧
      ∃ roles, lastRelationRoles (store_primitive_block w2) = some roles ∧
        roles[j]? = some 0 := by
  have hval2 : ∀ m2 ∈ r.members, ∃ t, encodeMemberType m2.type = .ok t := by
    intro m2 hm2
    rcases hval m2 hm2 with h | h | h
    · exact ⟨MEMBER_NODE, by rw [h]; exact encodeMemberType_n⟩
    · exact ⟨MEMBER_WAY, by rw [h]; exact encodeMemberType_w⟩
    · exact ⟨MEMBER_RELATION, by rw [h]; exact encodeMemberType_r⟩
  obtain ⟨res, hres⟩ := processMembers_valid_ok r.members
    (makeInfo w (recordTags w.string_table r.tags).2.2 r.version r.timestamp r.changeset
      r.uid r.user r.visible).2 0 hval2
  have hroles0 : res.1[j]? = some 0 :=
    processMembers_ok_roles r.members _ 0 res hres j m hj hrole
  refine ⟨_, write_relation_eq relSize w r res hres, ?_⟩
  · simp only [lastRelationRoles, store_primitive_block, List.getLast?_concat,
      Option.some_bind, FramePB, Option.map_some, Option.map_some', List.map_append,
      List.map_cons, List.map_nil, mapPBFRelation]
    refine ⟨_, rfl, ?_⟩
    rw [List.getElem?_map, hroles0]
    simp [map_string_id_zero]

theorem write_relation_invalid (relSize : PBFRelation → Nat) (w : PBFWriter)
    (r : OSMRelation)
    (h : ∃ m ∈ r.members, m.type ≠ 'n' ∧ m.type ≠ 'w' ∧ m.type ≠ 'r') :
    write_relation relSize w r = .error .InvalidMemberType := by
  obtain ⟨m, hm, h1, h2, h3⟩ := h
  have hbad := processMembers_invalid r.members
    (makeInfo w (recordTags w.string_table r.tags).2.2 r.version r.timestamp r.changeset
      r.uid r.user r.visible).2 0 ⟨m, hm, encodeMemberType_unknown h1 h2 h3⟩
  simp only [write_relation, hbad]

theorem write_relation_valid (relSize : PBFRelation → Nat) (w : PBFWriter)
    (r : OSMRelation)
    (hval : ∀ m2 ∈ r.members, m2.type = 'n' ∨ m2.type = 'w' ∨ m2.type = 'r') :
    ∃ w2, write_relation relSize w r = .ok w2 ∧
      ∃ rel, (w2.pbf_relations.getD []).getLast? = some rel ∧
        List.Forall₂ (fun m2 t => encodeMemberType m2.type = .ok t) r.members rel.types := by
  have hval2 : ∀ m2 ∈ r.members, ∃ t, encodeMemberType m2.type = .ok t := by
    intro m2 hm2
    rcases hval m2 hm2 with h | h | h
    · exact ⟨MEMBER_NODE, by rw [h]; exact encodeMemberType_n⟩
    · exact ⟨MEMBER_WAY, by rw [h]; exact encodeMemberType_w⟩
    · exact ⟨MEMBER_RELATION, by rw [h]; exact encodeMemberType_r⟩
  obtain ⟨res, hres⟩ := processMembers_valid_ok r.members
    (makeInfo w (recordTags w.string_table r.tags).2.2 r.version r.timestamp r.changeset
      r.uid r.user r.visible).2 0 hval2
  refine ⟨_, write_relation_eq relSize w r res hres, ?_⟩
  · simp only [Option.getD_some]
    rw [List.getLast?_concat]
    exact ⟨_, rfl, processMembers_types r.members _ 0 res hres⟩

/-- C6: an empty role string is recorded to interim id 0 without entering the
interim table, the remap sends id 0 to 0, and for every relation member with
an empty role the flushed block emits 0 at that member's roles_sid position,
the relation succeeding whenever its member kinds are valid. -/
theorem claim_C6 :
    (∀ st : StringTable, st.record_string "" = (0, st)) ∧
    (∀ st : StringTable, st.map_string_id 0 = 0) ∧
    (∀ (relSize : PBFRelation → Nat) (w : PBFWriter) (r : OSMRelation) (j : Nat)
        (m : RelationMember),
      r.members[j]? = some m → m.role = "" →
      (∀ m2 ∈ r.members, m2.type = 'n' ∨ m2.type = 'w' ∨ m2.type = 'r') →
      ∃ w2, PBF.relation relSize w r = .ok w2 ∧
        ∃ roles, lastRelationRoles (store_primitive_block w2) = some roles ∧
          roles[j]? = some 0) := by
  refine ⟨fun st => rfl, fun st => rfl, ?_⟩
  intro relSize w r j m hj hrole hval
  exact write_relation_roles_zero relSize
    (if (check_block_contents_counter w).pbf_relations.isNone then
      { check_block_contents_counter w with pbf_relations := some [] }
    else check_block_contents_counter w) r j m hj hrole hval

/-- C6 witness: scenario S5, whose third member has an empty role. -/
theorem claim_C6_witness :
    (relationS5.members[2]? = some ⟨'r', 3, ""⟩) ∧
    ((⟨'r', 3, ""⟩ : RelationMember).role = "") ∧
    (∀ m2 ∈ relationS5.members, m2.type = 'n' ∨ m2.type = 'w' ∨ m2.type = 'r') ∧
    ∃ w2, PBF.relation (fun _ => 0) (PBFWriter.mkDefault "osmium") relationS5 = .ok w2 ∧
      ∃ roles, lastRelationRoles (store_primitive_block w2) = some roles ∧
        roles[2]? = some 0 :=
  ⟨by decide, rfl, by decide,
    claim_C6.2.2 (fun _ => 0) (PBFWriter.mkDefault "osmium") relationS5 2 ⟨'r', 3, ""⟩
      (by decide) rfl (by decide)⟩

/-- C7: the encoder maps the member kind tags n, w, r to the protocol enum
values NODE, WAY and RELATION; any other kind tag makes the relation operation
fail with the invalid-member-type error, and when all kinds are valid the
appended relation's types column is the member-wise image of that mapping. -/
theorem claim_C7 :
    (encodeMemberType 'n' = .ok MEMBER_NODE ∧ encodeMemberType 'w' = .ok MEMBER_WAY ∧
      encodeMemberType 'r' = .ok MEMBER_RELATION) ∧
    (∀ c : Char, c ≠ 'n' → c ≠ 'w' → c ≠ 'r' →
      encodeMemberType c = .error .InvalidMemberType) ∧
    (∀ (relSize : PBFRelation → Nat) (w : PBFWriter) (r : OSMRelation),
      ((∃ m ∈ r.members, m.type ≠ 'n' ∧ m.type ≠ 'w' ∧ m.type ≠ 'r') →
        PBF.relation relSize w r = .error .InvalidMemberType) ∧
      ((∀ m2 ∈ r.members, m2.type = 'n' ∨ m2.type = 'w' ∨ m2.type = 'r') →
        ∃ w2, PBF.relation relSize w r = .ok w2 ∧
          ∃ rel, (w2.pbf_relations.getD []).getLast? = some rel ∧
            List.Forall₂ (fun m2 t => encodeMemberType m2.type = .ok t)
              r.members rel.types)) := by
  refine ⟨⟨encodeMemberType_n, encodeMemberType_w, encodeMemberType_r⟩, ?_, ?_⟩
  · intro c h1 h2 h3
    exact encodeMemberType_unknown h1 h2 h3
  · intro relSize w r
    constructor
    · intro h
      exact write_relation_invalid relSize
        (if (check_block_contents_counter w).pbf_relations.isNone then
          { check_block_contents_counter w with pbf_relations := some [] }
        else check_block_contents_counter w) r h
    · intro hval
      exact write_relation_valid relSize
        (if (check_block_contents_counter w).pbf_relations.isNone then
          { check_block_contents_counter w with pbf_relations := some [] }
        else check_block_contents_counter w) r hval

/-- C7 witness: a relation with an unknown member kind fails, scenario S5
succeeds with its member kinds mapped. -/
theorem claim_C7_witness :
    ('x' ≠ 'n' ∧ 'x' ≠ 'w' ∧ 'x' ≠ 'r') ∧
    (encodeMemberType 'x' = .error .InvalidMemberType) ∧
    (∃ m ∈ relationBad.members, m.type ≠ 'n' ∧ m.type ≠ 'w' ∧ m.type ≠ 'r') ∧
    (PBF.relation (fun _ => 0) (PBFWriter.mkDefault "osmium") relationBad =
      .error .InvalidMemberType) ∧
    (∀ m2 ∈ relationS5.members, m2.type = 'n' ∨ m2.type = 'w' ∨ m2.type = 'r') ∧
    (∃ w2, PBF.relation (fun _ => 0) (PBFWriter.mkDefault "osmium") relationS5 = .ok w2 ∧
      ∃ rel, (w2.pbf_relations.getD []).getLast? = some rel ∧
        List.Forall₂ (fun m2 t => encodeMemberType m2.type = .ok t)
          relationS5.members rel.types) :=
  ⟨⟨by decide, by decide, by decide⟩,
    claim_C7.2.1 'x' (by decide) (by decide) (by decide),
    by decide,
    (claim_C7.2.2 (fun _ => 0) (PBFWriter.mkDefault "osmium") relationBad).1 (by decide),
    by decide,
    (claim_C7.2.2 (fun _ => 0) (PBFWriter.mkDefault "osmium") relationS5).2 (by decide)⟩

end Osmium
